import Mathlib

set_option linter.unusedVariables false

/-!
Verification of the Monkey-interpreter front end (Rust sources:
`src/token/token.rs`, `src/lexer/lexer.rs`, `src/ast/ast.rs`,
`src/parser/parser.rs`) against its natural-language specification.

Modelling conventions.

* Rust `String` input is modelled as its character sequence `List Char`.
  The source mixes *byte* positions and *char* positions: `input.len()`
  is a byte count while `input.chars().nth(i)` indexes characters and
  `input[a..b]` slices bytes.  We therefore keep both views: `byteLen`
  computes the UTF-8 byte length of the character list, `List.get?`
  indexes characters, and `byteSlice` performs byte-range slicing that
  fails (like Rust's panicking `str` indexing) off char boundaries.
* A Rust panic (`unwrap`, `expect`, the panic macro, out-of-bounds
  string slice) is the `Res.panicked` outcome.  Loops whose exit the
  program does not guarantee are given fuel; running out is
  `Res.fuelOut`, distinct from a panic and from a normal result.  The
  lexer's loops always terminate within a computable bound and are run
  with that bound as structural fuel; the parser's `while` loops
  (`parse_program`'s statement loop and the trailing-skip loops of
  let/return parsing) have no such bound and take an explicit fuel
  parameter.
* Machine integers: `position`/`read_position` are `u32` in the source;
  they only grow by 1 per consumed character, so they are modelled as
  `Nat`.
* `char::is_alphabetic` / `char::is_numeric` are Unicode predicates in
  Rust; they are modelled by the ASCII predicates `Char.isAlpha` /
  `Char.isDigit`.  The two agree on every character appearing in the
  inputs used here (in particular on `'€'`, which is neither alphabetic
  nor numeric in Unicode).
-/

/-- Outcome of running a piece of the (possibly panicking, possibly
fuelled) Rust program: a normal result, a Rust panic, or fuel
exhaustion of a modelled loop. -/
inductive Res (α : Type) where
  | ok : α → Res α
  | panicked : Res α
  | fuelOut : Res α
deriving DecidableEq, Repr

/-- `TokenType` from `token.rs`: `pub type TokenType = &'static str`. -/
abbrev TokenType := String

/-- `Token` from `token.rs`. -/
structure Token where
  type : TokenType
  literal : String
deriving DecidableEq, Repr

namespace Tok

/-- Token-type constants from `token.rs` (namespaced to avoid clashes
with core Lean names). -/
def ILLEGAL : TokenType := "ILLEGAL"

def EOF : TokenType := "EOF"

def IDENT : TokenType := "IDENT"

def INT : TokenType := "INT"

def ASSIGN : TokenType := "="

def PLUS : TokenType := "+"

def MINUS : TokenType := "-"

def BANG : TokenType := "!"

def ASTERISK : TokenType := "*"

def SLASH : TokenType := "/"

def LT : TokenType := "<"

def GT : TokenType := ">"

def EQ : TokenType := "=="

def NEQ : TokenType := "!="

def COMMA : TokenType := ","

def SEMICOLON : TokenType := ";"

def LPAREN : TokenType := "("

def RPAREN : TokenType := ")"

def LBRACE : TokenType := "\x7b"

def RBRACE : TokenType := "\x7d"

def FUNCTION : TokenType := "FUNCTION"

def LET : TokenType := "LET"

def TRUE : TokenType := "TRUE"

def FALSE : TokenType := "FALSE"

def IF : TokenType := "IF"

def ELSE : TokenType := "ELSE"

def RETURN : TokenType := "RETURN"

end Tok

/-- The `KEYWORDS` table from `token.rs`. -/
def KEYWORDS : List (String × TokenType) :=
  [("fn", Tok.FUNCTION), ("let", Tok.LET), ("true", Tok.TRUE), ("false", Tok.FALSE),
   ("if", Tok.IF), ("else", Tok.ELSE), ("return", Tok.RETURN)]

/-- `lookup_ident` from `token.rs`: first matching keyword, else `IDENT`. -/
def lookup_ident (ident : String) : TokenType :=
  match KEYWORDS.find? (fun kv => ident == kv.1) with
  | some kv => kv.2
  | none => Tok.IDENT

/-- UTF-8 byte length of a character sequence: Rust `String::len`. -/
def byteLen (cs : List Char) : Nat := (cs.map Char.utf8Size).sum

/-- Drop exactly `n` *bytes* from the front of a character sequence;
`none` when `n` is not a char boundary (Rust slicing panics there). -/
def byteDrop : List Char → Nat → Option (List Char)
  | cs, 0 => some cs
  | [], _ + 1 => none
  | c :: cs, n + 1 =>
    if c.utf8Size ≤ n + 1 then byteDrop cs (n + 1 - c.utf8Size) else none

/-- Take exactly `n` *bytes* from the front of a character sequence;
`none` when `n` is not a char boundary. -/
def byteTake : List Char → Nat → Option (List Char)
  | _, 0 => some []
  | [], _ + 1 => none
  | c :: cs, n + 1 =>
    if c.utf8Size ≤ n + 1 then (byteTake cs (n + 1 - c.utf8Size)).map (c :: ·) else none

/-- Rust byte-range slice `&input[a..b]`: `none` exactly when Rust
panics (range out of order, past the end, or off a char boundary). -/
def byteSlice (cs : List Char) (a b : Nat) : Option (List Char) :=
  if a ≤ b then (byteDrop cs a).bind (fun rest => byteTake rest (b - a)) else none

/-- The `Lexer` struct from `lexer.rs`. -/
structure Lexer where
  input : List Char
  position : Nat
  read_position : Nat
  ch : Char
deriving DecidableEq, Repr

/-- `Lexer::read_char`.  `self.input.len()` is the byte length while
`chars().nth(read_position)` indexes characters; the `.unwrap()` panics
when the char index is exhausted but bytes remain. -/
def read_char (l : Lexer) : Res Lexer :=
  if byteLen l.input ≤ l.read_position then
    .ok { l with ch := '\x00', position := l.read_position,
                 read_position := l.read_position + 1 }
  else
    match l.input.get? l.read_position with
    | some c => .ok { l with ch := c, position := l.read_position,
                             read_position := l.read_position + 1 }
    | none => .panicked

/-- `Lexer::peak_char` (same byte-length/char-index mix, same
`.unwrap()` panic). -/
def peak_char (l : Lexer) : Res Char :=
  if byteLen l.input ≤ l.read_position then .ok '\x00'
  else
    match l.input.get? l.read_position with
    | some c => .ok c
    | none => .panicked

/-- `Lexer::new`. -/
def lexer_new (input : List Char) : Res Lexer :=
  read_char { input := input, position := 0, read_position := 0, ch := '\x00' }

/-- `Lexer::is_letter` (Rust alphabetic-or-underscore test,
ASCII-modelled). -/
def is_letter (c : Char) : Bool := c.isAlpha || c == '_'

/-- Rust numeric-character test, ASCII-modelled. -/
def is_numeric (c : Char) : Bool := c.isDigit

/-- The whitespace test of `Lexer::skip_whitespace`. -/
def is_ws (c : Char) : Bool := c == ' ' || c == '\t' || c == '\n' || c == '\r'

/-- The lexer's three scan loops (`skip_whitespace` and the inner
loops of `read_identifier`/`read_number`) share one shape: advance via
`read_char` while a character test holds.  Each `read_char` increases
`read_position` by 1, and once the cursor passes the end of the input
the current character becomes `'\x00'`, on which each of the three
tests is false — so the loop below, run with the `scan_fuel` bound,
never exhausts its fuel (the `.fuelOut` branch is unreachable; the fuel
is only there to make the recursion structural). -/
def scan_loop (test : Char → Bool) : Nat → Lexer → Res Lexer
  | 0, l => if test l.ch then .fuelOut else .ok l
  | f + 1, l =>
    if test l.ch then
      match read_char l with
      | .ok l2 => scan_loop test f l2
      | .panicked => .panicked
      | .fuelOut => .fuelOut
    else .ok l

/-- Iteration bound for `scan_loop`: the cursor reaches the end-marker
state after at most `byteLen input + 2 - read_position` steps. -/
def scan_fuel (l : Lexer) : Nat := byteLen l.input + 2 - l.read_position + 1

/-- `Lexer::skip_whitespace`. -/
def skip_whitespace (l : Lexer) : Res Lexer := scan_loop is_ws (scan_fuel l) l

/-- The common body of `Lexer::read_identifier` and
`Lexer::read_number`: scan a run of characters passing the test, then
take the byte slice `input[position..self.position]` (which panics off
char boundaries, modelled by `byteSlice = none`). -/
def scan_slice (test : Char → Bool) (l : Lexer) : Res (String × Lexer) :=
  match scan_loop test (scan_fuel l) l with
  | .ok l2 =>
    match byteSlice l.input l.position l2.position with
    | some cs => .ok (String.mk cs, l2)
    | none => .panicked
  | .panicked => .panicked
  | .fuelOut => .fuelOut

/-- `Lexer::read_identifier`. -/
def read_identifier (l : Lexer) : Res (String × Lexer) := scan_slice is_letter l

/-- `Lexer::read_number`. -/
def read_number (l : Lexer) : Res (String × Lexer) := scan_slice is_numeric l

/-- `Lexer::new_token`. -/
def new_token (token_type : TokenType) (ch : Char) : Token :=
  { type := token_type, literal := if ch == '\x00' then "" else String.mk [ch] }

/-- The shared tail of `Lexer::next_token`'s non-early-return branches:
read one more character, then return the prepared token. -/
def emit (t : Token) (l : Lexer) : Res (Token × Lexer) :=
  match read_char l with
  | .ok l2 => .ok (t, l2)
  | .panicked => .panicked
  | .fuelOut => .fuelOut

/-- `Lexer::next_token`.  The source's `match self.ch` over disjoint
single-character patterns is written as the equivalent first-match
conditional chain. -/
def lexer_next_token (l0 : Lexer) : Res (Token × Lexer) :=
  match skip_whitespace l0 with
  | .panicked => .panicked
  | .fuelOut => .fuelOut
  | .ok l =>
    if l.ch == '=' then
      match peak_char l with
      | .ok pc =>
        if pc == '=' then
          match read_char l with
          | .ok l2 => emit { type := Tok.EQ, literal := String.mk [l.ch, l2.ch] } l2
          | .panicked => .panicked
          | .fuelOut => .fuelOut
        else emit (new_token Tok.ASSIGN l.ch) l
      | .panicked => .panicked
      | .fuelOut => .fuelOut
    else if l.ch == '+' then emit (new_token Tok.PLUS l.ch) l
    else if l.ch == '-' then emit (new_token Tok.MINUS l.ch) l
    else if l.ch == '!' then
      match peak_char l with
      | .ok pc =>
        if pc == '=' then
          match read_char l with
          | .ok l2 => emit { type := Tok.NEQ, literal := String.mk [l.ch, l2.ch] } l2
          | .panicked => .panicked
          | .fuelOut => .fuelOut
        else emit (new_token Tok.BANG l.ch) l
      | .panicked => .panicked
      | .fuelOut => .fuelOut
    else if l.ch == '*' then emit (new_token Tok.ASTERISK l.ch) l
    else if l.ch == '/' then emit (new_token Tok.SLASH l.ch) l
    else if l.ch == '<' then emit (new_token Tok.LT l.ch) l
    else if l.ch == '>' then emit (new_token Tok.GT l.ch) l
    else if l.ch == ';' then emit (new_token Tok.SEMICOLON l.ch) l
    else if l.ch == '(' then emit (new_token Tok.LPAREN l.ch) l
    else if l.ch == ')' then emit (new_token Tok.RPAREN l.ch) l
    else if l.ch == '\x7b' then emit (new_token Tok.LBRACE l.ch) l
    else if l.ch == '\x7d' then emit (new_token Tok.RBRACE l.ch) l
    else if l.ch == ',' then emit (new_token Tok.COMMA l.ch) l
    else if l.ch == '\x00' then emit (new_token Tok.EOF l.ch) l
    else if is_letter l.ch then
      match read_identifier l with
      | .ok (lit, l2) => .ok ({ type := lookup_ident lit, literal := lit }, l2)
      | .panicked => .panicked
      | .fuelOut => .fuelOut
    else if is_numeric l.ch then
      match read_number l with
      | .ok (lit, l2) => .ok ({ type := Tok.INT, literal := lit }, l2)
      | .panicked => .panicked
      | .fuelOut => .fuelOut
    else emit (new_token Tok.ILLEGAL l.ch) l

/-- Pull `n` successive tokens from a lexer (the driver loop of the
REPL / the parser's repeated `next_token` calls). -/
def lex_tokens : Nat → Lexer → Res (List Token)
  | 0, _ => .ok []
  | n + 1, l =>
    match lexer_next_token l with
    | .ok (t, l2) =>
      match lex_tokens n l2 with
      | .ok ts => .ok (t :: ts)
      | .panicked => .panicked
      | .fuelOut => .fuelOut
    | .panicked => .panicked
    | .fuelOut => .fuelOut

/-- Lex the first `n` tokens of a source string. -/
def lex_string (n : Nat) (s : String) : Res (List Token) :=
  match lexer_new s.data with
  | .ok l => lex_tokens n l
  | .panicked => .panicked
  | .fuelOut => .fuelOut

/-- `Identifier` from `ast.rs`. -/
structure Identifier where
  token : Token
  value : String
deriving DecidableEq, Repr

/-- The expression hierarchy of `ast.rs`; `Identifier` is the only
expression form the running parser ever constructs. -/
inductive Expr where
  | identifier : Identifier → Expr
deriving DecidableEq, Repr

/-- The statement hierarchy of `ast.rs`: `LetStatement` (token + name),
`ReturnStatement` (token), `ExpressionStatement` (token + expression). -/
inductive Stmt where
  | letStmt : Token → Identifier → Stmt
  | returnStmt : Token → Stmt
  | exprStmt : Token → Expr → Stmt
deriving DecidableEq, Repr

/-- `Identifier::string` from `ast.rs`. -/
def Identifier.string (i : Identifier) : String := i.value

/-- `Expression::string` dispatch (only identifiers exist). -/
def Expr.string : Expr → String
  | .identifier i => i.string

/-- `Node::string` for statements, from `ast.rs`: a `LetStatement`
renders as its token literal, a space, the name, then an equals sign
and the terminating semicolon (value rendering not yet implemented). -/
def Stmt.string : Stmt → String
  | .letStmt tok name => tok.literal ++ " " ++ name.string ++ " = " ++ ";"
  | .returnStmt tok => tok.literal ++ " " ++ ";"
  | .exprStmt _ e => e.string

/-- `Node::token_literal` for statements. -/
def Stmt.token_literal : Stmt → String
  | .letStmt tok _ => tok.literal
  | .returnStmt tok => tok.literal
  | .exprStmt tok _ => tok.literal

/-- The prefix-strategy function pointers (`PrefixParseFn`) that exist
in the program: only `Parser::parse_identifier` is ever registered. -/
inductive PrefixFnSym where
  | parseIdentifier
deriving DecidableEq, Repr

/-- The infix-strategy function pointers (`InfixParseFn`): the program
never constructs one, so the type is empty. -/
inductive InfixFnSym : Type

instance : DecidableEq InfixFnSym := fun a => nomatch a

/-- The `Parser` struct from `parser.rs`.  The two `HashMap`s of
function pointers are modelled as association lists of the function
symbols above. -/
structure Parser where
  lexer : Lexer
  cur_token : Option Token
  peek_token : Option Token
  errors : List String
  prefix_parse_fns : List (TokenType × PrefixFnSym)
  infix_parse_fns : List (TokenType × InfixFnSym)

/-- `HashMap::contains_key`/indexing for the strategy registries
(first-match association-list lookup). -/
def fns_lookup {α : Type} (m : List (TokenType × α)) (k : TokenType) : Option α :=
  (m.find? (fun kv => kv.1 == k)).map (fun kv => kv.2)

/-- The `LOWEST` precedence constant from `parser.rs`. -/
def LOWEST : Nat := 1

/-- `Parser::next_token`: shift `peek` into `current` and pull a fresh
token from the lexer into `peek`. -/
def parser_next_token (p : Parser) : Res Parser :=
  match lexer_next_token p.lexer with
  | .ok (t, lx) =>
    .ok { p with cur_token := p.peek_token, peek_token := some t, lexer := lx }
  | .panicked => .panicked
  | .fuelOut => .fuelOut

/-- `Parser::register_prefix` (HashMap insert; lookup takes the first
match, so prepending overrides). -/
def register_prefix_fn (p : Parser) (tt : TokenType) (f : PrefixFnSym) : Parser :=
  { p with prefix_parse_fns := (tt, f) :: p.prefix_parse_fns }

/-- `Parser::new`: two `next_token` calls populate `current`/`peek`,
then the single prefix strategy (identifiers) is registered. -/
def parser_new (lx : Lexer) : Res Parser :=
  let p : Parser :=
    { lexer := lx, cur_token := none, peek_token := none, errors := [],
      prefix_parse_fns := [], infix_parse_fns := [] }
  match parser_next_token p with
  | .ok p1 =>
    match parser_next_token p1 with
    | .ok p2 => .ok (register_prefix_fn p2 Tok.IDENT .parseIdentifier)
    | .panicked => .panicked
    | .fuelOut => .fuelOut
  | .panicked => .panicked
  | .fuelOut => .fuelOut

/-- `Parser::cur_token_is`. -/
def cur_token_is (p : Parser) (t : TokenType) : Bool :=
  match p.cur_token with
  | some ct => ct.type == t
  | none => false

/-- `Parser::peek_token_is`. -/
def peek_token_is (p : Parser) (t : TokenType) : Bool :=
  match p.peek_token with
  | some pt => pt.type == t
  | none => false

/-- `Parser::peek_error`: format and append one diagnostic (the
`.expect` on `peek_token` panics when it is `None`). -/
def peek_error (p : Parser) (t : TokenType) : Res Parser :=
  match p.peek_token with
  | some pt =>
    .ok { p with errors :=
      p.errors ++ ["expected next token to be " ++ t ++ ", got " ++ pt.type] }
  | none => .panicked

/-- `Parser::expect_peek`. -/
def expect_peek (p : Parser) (t : TokenType) : Res (Bool × Parser) :=
  if peek_token_is p t then
    match parser_next_token p with
    | .ok p2 => .ok (true, p2)
    | .panicked => .panicked
    | .fuelOut => .fuelOut
  else
    match peek_error p t with
    | .ok p2 => .ok (false, p2)
    | .panicked => .panicked
    | .fuelOut => .fuelOut

/-- `Parser::parse_identifier` (the registered prefix strategy; panics
when `cur_token` is `None`). -/
def parse_identifier (p : Parser) : Res (Expr × Parser) :=
  match p.cur_token with
  | some ct => .ok (.identifier { token := ct, value := ct.literal }, p)
  | none => .panicked

/-- Dispatch a stored prefix-strategy function pointer. -/
def run_prefix_fn : PrefixFnSym → Parser → Res (Expr × Parser)
  | .parseIdentifier, p => parse_identifier p

/-- `Parser::parse_expression`: look up the prefix strategy for the
current token's kind; `None` (with no diagnostic) when none is
registered, otherwise invoke it.  The precedence argument is unused in
this snapshot (no infix loop). -/
def parse_expression (precedence : Nat) (p : Parser) : Res (Option Expr × Parser) :=
  match p.cur_token with
  | none => .panicked
  | some ct =>
    match fns_lookup p.prefix_parse_fns ct.type with
    | none => .ok (none, p)
    | some f =>
      match run_prefix_fn f p with
      | .ok (e, p2) => .ok (some e, p2)
      | .panicked => .panicked
      | .fuelOut => .fuelOut

/-- `Parser::parse_expression_statement`. -/
def parse_expression_statement (p : Parser) : Res (Option Stmt × Parser) :=
  match p.cur_token with
  | none => .ok (none, p)
  | some tok =>
    match parse_expression LOWEST p with
    | .ok (none, p2) => .ok (none, p2)
    | .ok (some e, p2) =>
      if peek_token_is p2 Tok.SEMICOLON then
        match parser_next_token p2 with
        | .ok p3 => .ok (some (.exprStmt tok e), p3)
        | .panicked => .panicked
        | .fuelOut => .fuelOut
      else .ok (some (.exprStmt tok e), p2)
    | .panicked => .panicked
    | .fuelOut => .fuelOut

/-- The trailing-skip loop shared by `parse_let_statement` and
`parse_return_statement`: advance until the current token is a
semicolon.  Nothing in the source bounds this loop, so it takes fuel. -/
def skip_to_semicolon : Nat → Parser → Res Parser
  | 0, p => if cur_token_is p Tok.SEMICOLON then .ok p else .fuelOut
  | fuel + 1, p =>
    if cur_token_is p Tok.SEMICOLON then .ok p
    else
      match parser_next_token p with
      | .ok p2 => skip_to_semicolon fuel p2
      | .panicked => .panicked
      | .fuelOut => .fuelOut

/-- `Parser::parse_let_statement`.  `cur_token.take()` empties the
current slot; the name is the token accepted by `expect_peek(IDENT)`,
and its `value` is that token's literal. -/
def parse_let_statement (fuel : Nat) (p0 : Parser) : Res (Option Stmt × Parser) :=
  match p0.cur_token with
  | none => .ok (none, { p0 with cur_token := none })
  | some let_token =>
    let p := { p0 with cur_token := none }
    if let_token.type ≠ Tok.LET then .ok (none, p)
    else
      match expect_peek p Tok.IDENT with
      | .ok (false, p1) => .ok (none, p1)
      | .ok (true, p1) =>
        (match p1.cur_token with
         | none => .ok (none, p1)
         | some identifier_token =>
           let identifier : Identifier :=
             { token := identifier_token, value := identifier_token.literal }
           match expect_peek p1 Tok.ASSIGN with
           | .ok (false, p2) => .ok (none, p2)
           | .ok (true, p2) =>
             (match skip_to_semicolon fuel p2 with
              | .ok p3 => .ok (some (.letStmt let_token identifier), p3)
              | .panicked => .panicked
              | .fuelOut => .fuelOut)
           | .panicked => .panicked
           | .fuelOut => .fuelOut)
      | .panicked => .panicked
      | .fuelOut => .fuelOut

/-- `Parser::parse_return_statement`. -/
def parse_return_statement (fuel : Nat) (p0 : Parser) : Res (Option Stmt × Parser) :=
  match p0.cur_token with
  | none => .ok (none, { p0 with cur_token := none })
  | some return_token =>
    let p := { p0 with cur_token := none }
    if return_token.type ≠ Tok.RETURN then .ok (none, p)
    else
      match parser_next_token p with
      | .ok p1 =>
        (match skip_to_semicolon fuel p1 with
         | .ok p2 => .ok (some (.returnStmt return_token), p2)
         | .panicked => .panicked
         | .fuelOut => .fuelOut)
      | .panicked => .panicked
      | .fuelOut => .fuelOut

/-- `Parser::parse_statement`: dispatch on the current token's kind
(panics when `cur_token` is `None`). -/
def parse_statement (fuel : Nat) (p : Parser) : Res (Option Stmt × Parser) :=
  match p.cur_token with
  | none => .panicked
  | some ct =>
    if ct.type == Tok.LET then parse_let_statement fuel p
    else if ct.type == Tok.RETURN then parse_return_statement fuel p
    else parse_expression_statement p

/-- `Parser::parse_program`: parse statements until the current token
is `EOF`, keeping the successful ones in order.  The fuel bounds the
number of loop iterations. -/
def parse_program : Nat → Parser → Res (List Stmt × Parser)
  | 0, p => if cur_token_is p Tok.EOF then .ok ([], p) else .fuelOut
  | fuel + 1, p =>
    if cur_token_is p Tok.EOF then .ok ([], p)
    else
      match parse_statement (fuel + 1) p with
      | .ok (stOpt, p1) =>
        (match parser_next_token p1 with
         | .ok p2 =>
           (match parse_program fuel p2 with
            | .ok (rest, p3) =>
              .ok ((match stOpt with | some s => s :: rest | none => rest), p3)
            | .panicked => .panicked
            | .fuelOut => .fuelOut)
         | .panicked => .panicked
         | .fuelOut => .fuelOut)
      | .panicked => .panicked
      | .fuelOut => .fuelOut

/-- Build a lexer and parser over a source string and run
`parse_program` (the flow of the parser tests in `parser.rs`). -/
def parse_input (fuel : Nat) (s : String) : Res (List Stmt × Parser) :=
  match lexer_new s.data with
  | .ok lx =>
    (match parser_new lx with
     | .ok p => parse_program fuel p
     | .panicked => .panicked
     | .fuelOut => .fuelOut)
  | .panicked => .panicked
  | .fuelOut => .fuelOut

/-- The statements of a completed parse. -/
def stmts_of {α : Type} : Res (List Stmt × α) → Option (List Stmt)
  | .ok (sts, _) => some sts
  | _ => none

/-- The accumulated diagnostics of a completed parse. -/
def errors_of : Res (List Stmt × Parser) → Option (List String)
  | .ok (_, p) => some p.errors
  | _ => none

/-- Build the parser for a source string (lexer construction plus
`Parser::new`), without running `parse_program`. -/
def parser_for (s : String) : Res Parser :=
  match lexer_new s.data with
  | .ok lx => parser_new lx
  | .panicked => .panicked
  | .fuelOut => .fuelOut

/-- The first token the lexer produces for a source string. -/
def first_token (s : String) : Res (Token × Lexer) :=
  match lexer_new s.data with
  | .ok l => lexer_next_token l
  | .panicked => .panicked
  | .fuelOut => .fuelOut

/-- The invariant of every `Identifier` node the parser constructs:
its `value` equals the retained token's literal. -/
def ident_inv (i : Identifier) : Prop := i.value = i.token.literal

/-- `ident_inv` at every identifier inside an expression. -/
def expr_inv : Expr → Prop
  | .identifier i => ident_inv i

/-- `ident_inv` at every identifier inside a statement. -/
def stmt_inv : Stmt → Prop
  | .letStmt _ name => ident_inv name
  | .returnStmt _ => True
  | .exprStmt _ e => expr_inv e

/-- The lexer has consumed its whole input: the cursor is past the end
and the current character is the end marker. -/
def lexer_exhausted (l : Lexer) : Prop :=
  byteLen l.input ≤ l.read_position ∧ l.ch = '\x00'

/-- A parser state from which the trailing-skip loop can never exit:
neither the current nor the peek token is a semicolon and the lexer is
exhausted (so every further token is `EOF`, never `;`). -/
def parser_stuck (p : Parser) : Prop :=
  cur_token_is p Tok.SEMICOLON = false ∧
  peek_token_is p Tok.SEMICOLON = false ∧
  lexer_exhausted p.lexer

/-- The input of the C1 analysis: a let statement with no terminating
semicolon. -/
def c1_input : String := "let x = 5"

/-- The parser state right after `Parser::new` on `c1_input`. -/
def c1_P0 : Parser :=
  { lexer := { input := c1_input.data, position := 5, read_position := 6, ch := ' ' },
    cur_token := some { type := Tok.LET, literal := "let" },
    peek_token := some { type := Tok.IDENT, literal := "x" },
    errors := [],
    prefix_parse_fns := [(Tok.IDENT, .parseIdentifier)],
    infix_parse_fns := [] }

/-- The parser state of the `c1_input` parse at entry to the
trailing-skip loop of `parse_let_statement`: the lexer is exhausted and
neither cursor token is a semicolon. -/
def c1_P2 : Parser :=
  { lexer := { input := c1_input.data, position := 9, read_position := 10, ch := '\x00' },
    cur_token := some { type := Tok.ASSIGN, literal := "=" },
    peek_token := some { type := Tok.INT, literal := "5" },
    errors := [],
    prefix_parse_fns := [(Tok.IDENT, .parseIdentifier)],
    infix_parse_fns := [] }

/-- The parser state right after `Parser::new` on `"5;"`: the current
token kind `INT` has no registered prefix strategy. -/
def c2_state : Parser :=
  { lexer := { input := ['5', ';'], position := 2, read_position := 3, ch := '\x00' },
    cur_token := some { type := Tok.INT, literal := "5" },
    peek_token := some { type := Tok.SEMICOLON, literal := ";" },
    errors := [],
    prefix_parse_fns := [(Tok.IDENT, .parseIdentifier)],
    infix_parse_fns := [] }

/-- The lexer state right after `Lexer::new` on `"=="`. -/
def c7_lex : Lexer := { input := ['=', '='], position := 0, read_position := 1, ch := '=' }

/-- The lexer state after `next_token` consumed both `'='`s of `"=="`. -/
def c7_lex2 : Lexer := { input := ['=', '='], position := 2, read_position := 3, ch := '\x00' }

deriving instance DecidableEq for Parser

/-- An all-ASCII character sequence: every character is one UTF-8
byte, so byte positions and character positions coincide.  The model
is only byte-for-byte faithful to the Rust lexer on such inputs (and
on non-ASCII input the Rust lexer cannot complete a parse: it panics
once the cursor passes the last character, see claim C3). -/
def ascii (cs : List Char) : Prop := ∀ c ∈ cs, c.utf8Size = 1

/-- Well-formed (reachable, all-ASCII) lexer states: the lookahead
cursor is one past the scan position and the current character is the
one under the scan position (the end marker past the end). -/
def lexer_wf (l : Lexer) : Prop :=
  ascii l.input ∧
  l.read_position = l.position + 1 ∧
  l.ch = (l.input.get? l.position).getD '\x00'

/-- What the lexer guarantees about the tokens it emits (on
well-formed states): a `LET`-typed token is spelled `let`, and an
`IDENT`-typed token carries a nonempty all-letter literal that the
keyword table classifies as an identifier. -/
def token_wf (t : Token) : Prop :=
  (t.type = Tok.LET → t.literal = "let") ∧
  (t.type = Tok.IDENT →
    t.literal.data ≠ [] ∧ (∀ c ∈ t.literal.data, is_letter c = true) ∧
    lookup_ident t.literal = Tok.IDENT)

/-- Well-formed parser states: the lexer is well formed and both
lookahead tokens (when present) were emitted by it. -/
def parser_wf (p : Parser) : Prop :=
  lexer_wf p.lexer ∧
  (∀ t, p.cur_token = some t → token_wf t) ∧
  (∀ t, p.peek_token = some t → token_wf t)

/-- What claim C9 needs of a statement: a let statement's leading
token is spelled `let` and its name is an identifier whose `value`
and retained literal agree and re-lex as one identifier token. -/
def stmt_render_wf : Stmt → Prop
  | .letStmt tok name =>
    tok.literal = "let" ∧ name.value = name.token.literal ∧
    name.token.literal.data ≠ [] ∧
    (∀ c ∈ name.token.literal.data, is_letter c = true) ∧
    lookup_ident name.token.literal = Tok.IDENT
  | .returnStmt _ => True
  | .exprStmt _ _ => True

/-- The lexer state after `skip_whitespace` from a well-formed state:
the cursor sits right after the maximal whitespace run. -/
def skip_ws_state (l : Lexer) : Lexer :=
  { input := l.input,
    position := l.position + (List.takeWhile is_ws (l.input.drop l.position)).length,
    read_position := l.position + (List.takeWhile is_ws (l.input.drop l.position)).length + 1,
    ch := (l.input.get? (l.position +
      (List.takeWhile is_ws (l.input.drop l.position)).length)).getD '\x00' }

/-! ## Helper lemmas -/

/-- `skip_whitespace` does nothing when the current character is not
whitespace. -/
theorem skip_whitespace_not_ws (l : Lexer) (h : is_ws l.ch = false) :
    skip_whitespace l = .ok l := by
  unfold skip_whitespace scan_fuel
  simp only [scan_loop, h]
  simp

/-- `read_char` past the end of the input: the end marker is loaded
and the cursor still advances. -/
theorem read_char_exh (l : Lexer) (h : byteLen l.input ≤ l.read_position) :
    read_char l = .ok { l with ch := '\x00', position := l.read_position,
                               read_position := l.read_position + 1 } := by
  unfold read_char
  rw [if_pos h]

/-- Every successful `read_char` advances the cursor by exactly one
and keeps the input. -/
theorem read_char_advances (l l2 : Lexer) (h : read_char l = .ok l2) :
    l2.read_position = l.read_position + 1 ∧ l2.input = l.input := by
  unfold read_char at h
  split at h
  · cases h
    exact ⟨rfl, rfl⟩
  · split at h
    · cases h
      exact ⟨rfl, rfl⟩
    · cases h

/-- When `peak_char` sees a character other than the end marker, that
character really is the next one and `read_char` loads it. -/
theorem peak_char_read (l : Lexer) (c : Char) (hpk : peak_char l = .ok c)
    (hc : c ≠ '\x00') :
    read_char l = .ok { l with ch := c, position := l.read_position,
                               read_position := l.read_position + 1 } := by
  unfold peak_char at hpk
  unfold read_char
  split at hpk
  · cases hpk
    exact absurd rfl hc
  · rename_i hge
    rw [if_neg hge]
    split at hpk
    · cases hpk
      rfl
    · cases hpk

/-- On an exhausted lexer, `next_token` returns the `EOF` token with
empty literal and the lexer stays exhausted. -/
theorem lexer_next_token_exhausted (l : Lexer) (h : lexer_exhausted l) :
    lexer_next_token l = .ok ({ type := Tok.EOF, literal := "" },
      { l with ch := '\x00', position := l.read_position,
               read_position := l.read_position + 1 }) := by
  obtain ⟨h1, h2⟩ := h
  unfold lexer_next_token
  rw [skip_whitespace_not_ws l (by rw [h2]; decide)]
  dsimp only
  rw [h2]
  show emit (new_token Tok.EOF '\x00') l = _
  unfold emit
  rw [read_char_exh l h1]
  rfl

/-- `Parser::next_token` over an exhausted lexer: the peek token slides
into the current slot and the new peek token is `EOF`. -/
theorem parser_next_token_exh (p : Parser) (h : lexer_exhausted p.lexer) :
    parser_next_token p =
      .ok { p with
            cur_token := p.peek_token,
            peek_token := some { type := Tok.EOF, literal := "" },
            lexer := { p.lexer with
                       ch := '\x00',
                       position := p.lexer.read_position,
                       read_position := p.lexer.read_position + 1 } } := by
  unfold parser_next_token
  rw [lexer_next_token_exhausted p.lexer h]

/-- The trailing-skip loop of let/return parsing never finishes from a
stuck state, with any amount of fuel: each iteration advances the
cursor but only ever pulls `EOF` tokens, never a semicolon. -/
theorem skip_to_semicolon_stuck :
    ∀ (fuel : Nat) (p : Parser), parser_stuck p →
    skip_to_semicolon fuel p = Res.fuelOut := by
  intro fuel
  induction fuel with
  | zero =>
    intro p h
    simp [skip_to_semicolon, h.1]
  | succ f ih =>
    intro p h
    obtain ⟨h1, h2, h3⟩ := h
    have hnext := parser_next_token_exh p h3
    simp only [skip_to_semicolon, h1, hnext]
    simp only [Bool.false_eq_true, if_false]
    apply ih
    refine ⟨?_, ?_, ?_, ?_⟩
    · exact h2
    · rfl
    · exact Nat.le_trans h3.1 (Nat.le_succ _)
    · rfl

/-- The first statement parse of the `c1_input` parse runs forever:
whatever the fuel, the trailing-skip loop exhausts it. -/
theorem c1_parse_statement_diverges (fuel : Nat) :
    parse_statement fuel c1_P0 = Res.fuelOut := by
  have hs : skip_to_semicolon fuel c1_P2 = Res.fuelOut :=
    skip_to_semicolon_stuck fuel c1_P2 ⟨by decide, by decide, by decide, rfl⟩
  calc parse_statement fuel c1_P0
      = (match skip_to_semicolon fuel c1_P2 with
         | .ok p3 => Res.ok (some (Stmt.letStmt { type := Tok.LET, literal := "let" }
             { token := { type := Tok.IDENT, literal := "x" }, value := "x" }), p3)
         | .panicked => Res.panicked
         | .fuelOut => Res.fuelOut) := rfl
    _ = Res.fuelOut := by rw [hs]

/-- `parse_program` on the initial `c1_input` parser state runs out of
any amount of fuel. -/
theorem c1_parse_program_diverges :
    ∀ fuel : Nat, parse_program fuel c1_P0 = Res.fuelOut := by
  intro fuel
  cases fuel with
  | zero => decide
  | succ f =>
    have h1 := c1_parse_statement_diverges (f + 1)
    calc parse_program (f + 1) c1_P0
        = (match parse_statement (f + 1) c1_P0 with
           | .ok (stOpt, p1) =>
             (match parser_next_token p1 with
              | .ok p2 =>
                (match parse_program f p2 with
                 | .ok (rest, p3) =>
                   Res.ok ((match stOpt with | some s => s :: rest | none => rest), p3)
                 | .panicked => Res.panicked
                 | .fuelOut => Res.fuelOut)
              | .panicked => Res.panicked
              | .fuelOut => Res.fuelOut)
           | .panicked => Res.panicked
           | .fuelOut => Res.fuelOut) := rfl
      _ = Res.fuelOut := by rw [h1]

/-- Any expression `parse_expression` successfully produces satisfies
the identifier invariant. -/
theorem parse_expression_some_inv (prec : Nat) (p : Parser) (e : Expr) (p2 : Parser)
    (h : parse_expression prec p = .ok (some e, p2)) : expr_inv e := by
  cases hcur : p.cur_token with
  | none => simp [parse_expression, hcur] at h
  | some ct =>
    cases hl : fns_lookup p.prefix_parse_fns ct.type with
    | none => simp [parse_expression, hcur, hl] at h
    | some f =>
      cases f
      simp [parse_expression, hcur, hl, run_prefix_fn, parse_identifier] at h
      obtain ⟨he, -⟩ := h
      subst he
      rfl

/-- Any statement `parse_expression_statement` successfully produces
satisfies the identifier invariant. -/
theorem parse_expression_statement_some_inv (p : Parser) (st : Stmt) (p2 : Parser)
    (h : parse_expression_statement p = .ok (some st, p2)) : stmt_inv st := by
  unfold parse_expression_statement at h
  split at h
  · simp at h
  · split at h
    · simp at h
    · rename_i e p3 hpe
      have hinv : expr_inv e := parse_expression_some_inv LOWEST p e p3 hpe
      split at h
      · split at h
        · simp only [Res.ok.injEq, Prod.mk.injEq, Option.some.injEq] at h
          obtain ⟨hst, -⟩ := h
          subst hst
          exact hinv
        · exact Res.noConfusion h
        · exact Res.noConfusion h
      · simp only [Res.ok.injEq, Prod.mk.injEq, Option.some.injEq] at h
        obtain ⟨hst, -⟩ := h
        subst hst
        exact hinv
    · exact Res.noConfusion h
    · exact Res.noConfusion h

/-- Any statement `parse_let_statement` successfully produces
satisfies the identifier invariant: the name's `value` is set to the
name token's literal at construction. -/
theorem parse_let_statement_some_inv (fuel : Nat) (p : Parser) (st : Stmt) (p2 : Parser)
    (h : parse_let_statement fuel p = .ok (some st, p2)) : stmt_inv st := by
  unfold parse_let_statement at h
  split at h
  · simp at h
  · split at h
    · simp at h
    · dsimp only at h
      split at h
      · simp at h
      · split at h
        · simp at h
        · split at h
          · simp at h
          · split at h
            · simp only [Res.ok.injEq, Prod.mk.injEq, Option.some.injEq] at h
              obtain ⟨hst, -⟩ := h
              subst hst
              rfl
            · exact Res.noConfusion h
            · exact Res.noConfusion h
          · exact Res.noConfusion h
          · exact Res.noConfusion h
      · exact Res.noConfusion h
      · exact Res.noConfusion h

/-- Any statement `parse_return_statement` successfully produces
satisfies the identifier invariant (trivially: no identifier). -/
theorem parse_return_statement_some_inv (fuel : Nat) (p : Parser) (st : Stmt) (p2 : Parser)
    (h : parse_return_statement fuel p = .ok (some st, p2)) : stmt_inv st := by
  unfold parse_return_statement at h
  split at h
  · simp at h
  · split at h
    · simp at h
    · dsimp only at h
      split at h
      · split at h
        · simp only [Res.ok.injEq, Prod.mk.injEq, Option.some.injEq] at h
          obtain ⟨hst, -⟩ := h
          subst hst
          trivial
        · exact Res.noConfusion h
        · exact Res.noConfusion h
      · exact Res.noConfusion h
      · exact Res.noConfusion h

/-- Any statement `parse_statement` successfully produces satisfies
the identifier invariant. -/
theorem parse_statement_some_inv (fuel : Nat) (p : Parser) (st : Stmt) (p2 : Parser)
    (h : parse_statement fuel p = .ok (some st, p2)) : stmt_inv st := by
  unfold parse_statement at h
  split at h
  · exact Res.noConfusion h
  · split at h
    · exact parse_let_statement_some_inv fuel p st p2 h
    · split at h
      · exact parse_return_statement_some_inv fuel p st p2 h
      · exact parse_expression_statement_some_inv p st p2 h

/-- Every statement in a completed `parse_program` satisfies the
identifier invariant. -/
theorem parse_program_inv :
    ∀ (fuel : Nat) (p : Parser) (sts : List Stmt) (p2 : Parser),
      parse_program fuel p = .ok (sts, p2) → ∀ st ∈ sts, stmt_inv st := by
  intro fuel
  induction fuel with
  | zero =>
    intro p sts p2 h
    unfold parse_program at h
    split at h
    · simp only [Res.ok.injEq, Prod.mk.injEq] at h
      obtain ⟨hst, -⟩ := h
      subst hst
      intro st hst
      simp at hst
    · exact Res.noConfusion h
  | succ f ih =>
    intro p sts p2 h
    unfold parse_program at h
    split at h
    · simp only [Res.ok.injEq, Prod.mk.injEq] at h
      obtain ⟨hst, -⟩ := h
      subst hst
      intro st hst
      simp at hst
    · split at h
      · rename_i stOpt p1 hps
        split at h
        · rename_i p3 hnx
          split at h
          · rename_i rest p4 hrec
            simp only [Res.ok.injEq, Prod.mk.injEq] at h
            obtain ⟨hst, -⟩ := h
            subst hst
            intro st hst
            cases stOpt with
            | some s =>
              rcases List.mem_cons.mp hst with rfl | hmem
              · exact parse_statement_some_inv (f + 1) p st p1 hps
              · exact ih p3 rest p4 hrec st hmem
            | none => exact ih p3 rest p4 hrec st hst
          · exact Res.noConfusion h
          · exact Res.noConfusion h
        · exact Res.noConfusion h
        · exact Res.noConfusion h
      · exact Res.noConfusion h
      · exact Res.noConfusion h

/-! ## The claims -/

/-- Claim C1: the spec asserts that parsing always terminates, and in
particular that the trailing-skip loops of let/return parsing
terminate even when no semicolon follows.  The code violates this: on
the input `"let x = 5"` the trailing-skip loop of
`parse_let_statement` never exits — after input exhaustion every
`advance()` pulls another `EndOfInput` token and the loop's semicolon
test never succeeds — so `parse_program` exhausts any amount of fuel
instead of returning. -/
theorem claim_C1 : ∀ fuel : Nat, parse_input fuel c1_input = Res.fuelOut := by
  intro fuel
  show parse_program fuel c1_P0 = Res.fuelOut
  exact c1_parse_program_diverges fuel

/-- Claim C2, counterexample: on input `"5;"` (current token kind
`INT` has no registered prefix strategy) `parse_expression` fails by
returning `None` but appends no diagnostic at all — the error list
stays empty, contradicting the claimed "no prefix parse function for
<kind>" diagnostic. -/
theorem claim_C2_counterexample :
    parser_for ("5;") = .ok c2_state ∧ c2_state.errors = [] ∧
    parse_expression LOWEST c2_state = .ok (none, c2_state) :=
  ⟨by decide, rfl, by decide⟩

/-- Claim C2, amended: when the current token's kind has no registered
prefix strategy, `parse_expression` fails by returning `None` and
leaves the parser — in particular its error list — completely
unchanged (the failure is silent; no diagnostic is recorded). -/
theorem claim_C2 (prec : Nat) (p : Parser) (ct : Token)
    (hcur : p.cur_token = some ct)
    (hno : fns_lookup p.prefix_parse_fns ct.type = none) :
    parse_expression prec p = .ok (none, p) := by
  simp [parse_expression, hcur, hno]

/-- Claim C2, witness: the amended statement at the `"5;"` state. -/
theorem claim_C2_witness : parse_expression LOWEST c2_state = .ok (none, c2_state) :=
  claim_C2 LOWEST c2_state { type := Tok.INT, literal := "5" } rfl rfl

/-- Claim C3: the spec asserts lexing never fails on any input, with
unrecognized characters becoming `Illegal` tokens.  The code violates
this for multi-byte input: `read_char` compares the char-indexed
cursor against the *byte* length, so on input `"€"` the trailing
`read_char` of `next_token` calls `.unwrap()` on `None` and panics. -/
theorem claim_C3 : first_token ("€") = Res.panicked := by decide

/-- Claim C4: `parse_program` on the three-let-statement input yields
exactly three `LetStatement`s named `x`, `y`, `foobar` in source
order, with an empty error list. -/
theorem claim_C4 :
    stmts_of (parse_input 99 ("let x = 5; let y = 10; let foobar = 838383;")) =
      some [Stmt.letStmt { type := Tok.LET, literal := "let" }
              { token := { type := Tok.IDENT, literal := "x" }, value := "x" },
            Stmt.letStmt { type := Tok.LET, literal := "let" }
              { token := { type := Tok.IDENT, literal := "y" }, value := "y" },
            Stmt.letStmt { type := Tok.LET, literal := "let" }
              { token := { type := Tok.IDENT, literal := "foobar" }, value := "foobar" }] ∧
    errors_of (parse_input 99 ("let x = 5; let y = 10; let foobar = 838383;")) = some [] :=
  ⟨by decide, by decide⟩

/-- Claim C10: in every program a completed `parse_program` returns,
every identifier node — a let statement's name or an identifier
expression — has its `value` equal to its retained token's literal. -/
theorem claim_C10 :
    ∀ (fuel : Nat) (s : String) (sts : List Stmt) (p : Parser),
      parse_input fuel s = .ok (sts, p) → ∀ st ∈ sts, stmt_inv st := by
  intro fuel s sts p h
  unfold parse_input at h
  split at h
  · split at h
    · exact parse_program_inv fuel _ sts p h
    · exact Res.noConfusion h
    · exact Res.noConfusion h
  · exact Res.noConfusion h
  · exact Res.noConfusion h

/-- Claim C10, witness: the invariant at the let statement parsed from
`"let x = 5;"`. -/
theorem claim_C10_witness :
    stmt_inv (Stmt.letStmt { type := Tok.LET, literal := "let" }
      { token := { type := Tok.IDENT, literal := "x" }, value := "x" }) :=
  claim_C10 99 ("let x = 5;") _ _ rfl _ (by decide)

/-- Claim C6: `expect_peek` on a state whose peek token is `pt`.  On a
kind match it advances (the peek token becomes current, a fresh token
is pulled into peek) and succeeds with the error list unchanged; on a
mismatch it appends exactly the one diagnostic
`"expected next token to be K, got K'"` and fails with current, peek
and lexer unchanged. -/
theorem claim_C6 (p : Parser) (pt : Token) (K : TokenType)
    (hpk : p.peek_token = some pt) :
    (pt.type = K → ∀ (t2 : Token) (lx2 : Lexer),
       lexer_next_token p.lexer = .ok (t2, lx2) →
       expect_peek p K = .ok (true,
         { p with cur_token := some pt, peek_token := some t2, lexer := lx2 })) ∧
    (pt.type ≠ K →
       expect_peek p K = .ok (false,
         { p with errors := p.errors ++
             ["expected next token to be " ++ K ++ ", got " ++ pt.type] })) := by
  constructor
  · intro hty t2 lx2 hlx
    have hpt : peek_token_is p K = true := by
      simp [peek_token_is, hpk, hty]
    unfold expect_peek
    rw [if_pos hpt]
    unfold parser_next_token
    rw [hlx]
    dsimp only
    rw [hpk]
  · intro hty
    have hpt : peek_token_is p K = false := by
      simp [peek_token_is, hpk, hty]
    unfold expect_peek
    rw [if_neg (by simp [hpt])]
    unfold peek_error
    rw [hpk]

/-- Claim C6, witness: the mismatch branch at the `"5;"` state, asking
for an identifier while the peek token is the semicolon. -/
theorem claim_C6_witness :
    expect_peek c2_state Tok.IDENT = .ok (false,
      { c2_state with errors := c2_state.errors ++
          ["expected next token to be " ++ Tok.IDENT ++ ", got " ++ Tok.SEMICOLON] }) :=
  (claim_C6 c2_state { type := Tok.SEMICOLON, literal := ";" } Tok.IDENT rfl).2 (by decide)

/-- Claim C7: with `'='` or `'!'` under the cursor, `next_token` emits
the two-character token (`==` or `!=`, literal the concatenation of
both characters, consuming both) exactly when the lookahead character
is `'='`; otherwise it emits the single-character token (`=` or `!`),
consuming one character.  In particular `"!x"` tokenizes as `Bang`
then `Identifier "x"`. -/
theorem claim_C7 :
    (∀ (l l2 : Lexer) (t : Token), l.ch = '=' ∨ l.ch = '!' →
      lexer_next_token l = .ok (t, l2) →
      ((peak_char l = .ok '=' →
          t = { type := if l.ch = '=' then Tok.EQ else Tok.NEQ,
                literal := String.mk [l.ch, '='] } ∧
          l2.read_position = l.read_position + 2) ∧
       (peak_char l ≠ .ok '=' →
          t = new_token (if l.ch = '=' then Tok.ASSIGN else Tok.BANG) l.ch ∧
          l2.read_position = l.read_position + 1))) ∧
    lex_string 3 ("!x") =
      .ok [{ type := Tok.BANG, literal := "!" }, { type := Tok.IDENT, literal := "x" },
           { type := Tok.EOF, literal := "" }] := by
  constructor
  · intro l l2 t hch hlx
    have hws : is_ws l.ch = false := by
      rcases hch with hc | hc <;> rw [hc] <;> decide
    unfold lexer_next_token at hlx
    rw [skip_whitespace_not_ws l hws] at hlx
    dsimp only at hlx
    rcases hch with hc | hc
    · -- current character '='
      rw [if_pos (show (l.ch == '=') = true by rw [hc]; decide)] at hlx
      rw [hc] at hlx
      cases hpk : peak_char l with
      | ok pc =>
        rw [hpk] at hlx
        dsimp only at hlx
        by_cases hpe : pc = '='
        · subst hpe
          rw [if_pos (show (('=' : Char) == '=') = true from rfl)] at hlx
          rw [peak_char_read l '=' hpk (by decide)] at hlx
          dsimp only at hlx
          unfold emit at hlx
          cases hrd2 : read_char { l with ch := '=', position := l.read_position,
                                          read_position := l.read_position + 1 } with
          | ok l3 =>
            rw [hrd2] at hlx
            dsimp only at hlx
            simp only [Res.ok.injEq, Prod.mk.injEq] at hlx
            obtain ⟨ht, hl2⟩ := hlx
            constructor
            · intro _
              refine ⟨by rw [← ht, hc]; simp, ?_⟩
              rw [← hl2, (read_char_advances _ _ hrd2).1]
            · intro hne
              exact absurd rfl hne
          | panicked =>
            rw [hrd2] at hlx
            exact Res.noConfusion hlx
          | fuelOut =>
            rw [hrd2] at hlx
            exact Res.noConfusion hlx
        · rw [if_neg (show ¬((pc == '=') = true) by simp [hpe])] at hlx
          unfold emit at hlx
          cases hrd : read_char l with
          | ok l3 =>
            rw [hrd] at hlx
            dsimp only at hlx
            simp only [Res.ok.injEq, Prod.mk.injEq] at hlx
            obtain ⟨ht, hl2⟩ := hlx
            constructor
            · intro hpeq
              simp only [Res.ok.injEq] at hpeq
              exact absurd hpeq hpe
            · intro _
              refine ⟨by rw [← ht, hc]; simp, ?_⟩
              rw [← hl2, (read_char_advances _ _ hrd).1]
          | panicked =>
            rw [hrd] at hlx
            exact Res.noConfusion hlx
          | fuelOut =>
            rw [hrd] at hlx
            exact Res.noConfusion hlx
      | panicked =>
        rw [hpk] at hlx
        dsimp only at hlx
        exact Res.noConfusion hlx
      | fuelOut =>
        rw [hpk] at hlx
        dsimp only at hlx
        exact Res.noConfusion hlx
    · -- current character '!'
      rw [if_neg (show ¬((l.ch == '=') = true) by rw [hc]; decide)] at hlx
      rw [if_neg (show ¬((l.ch == '+') = true) by rw [hc]; decide)] at hlx
      rw [if_neg (show ¬((l.ch == '-') = true) by rw [hc]; decide)] at hlx
      rw [if_pos (show (l.ch == '!') = true by rw [hc]; decide)] at hlx
      rw [hc] at hlx
      cases hpk : peak_char l with
      | ok pc =>
        rw [hpk] at hlx
        dsimp only at hlx
        by_cases hpe : pc = '='
        · subst hpe
          rw [if_pos (show (('=' : Char) == '=') = true from rfl)] at hlx
          rw [peak_char_read l '=' hpk (by decide)] at hlx
          dsimp only at hlx
          unfold emit at hlx
          cases hrd2 : read_char { l with ch := '=', position := l.read_position,
                                          read_position := l.read_position + 1 } with
          | ok l3 =>
            rw [hrd2] at hlx
            dsimp only at hlx
            simp only [Res.ok.injEq, Prod.mk.injEq] at hlx
            obtain ⟨ht, hl2⟩ := hlx
            constructor
            · intro _
              refine ⟨by rw [← ht, hc]; simp, ?_⟩
              rw [← hl2, (read_char_advances _ _ hrd2).1]
            · intro hne
              exact absurd rfl hne
          | panicked =>
            rw [hrd2] at hlx
            exact Res.noConfusion hlx
          | fuelOut =>
            rw [hrd2] at hlx
            exact Res.noConfusion hlx
        · rw [if_neg (show ¬((pc == '=') = true) by simp [hpe])] at hlx
          unfold emit at hlx
          cases hrd : read_char l with
          | ok l3 =>
            rw [hrd] at hlx
            dsimp only at hlx
            simp only [Res.ok.injEq, Prod.mk.injEq] at hlx
            obtain ⟨ht, hl2⟩ := hlx
            constructor
            · intro hpeq
              simp only [Res.ok.injEq] at hpeq
              exact absurd hpeq hpe
            · intro _
              refine ⟨by rw [← ht, hc]; simp, ?_⟩
              rw [← hl2, (read_char_advances _ _ hrd).1]
          | panicked =>
            rw [hrd] at hlx
            exact Res.noConfusion hlx
          | fuelOut =>
            rw [hrd] at hlx
            exact Res.noConfusion hlx
      | panicked =>
        rw [hpk] at hlx
        dsimp only at hlx
        exact Res.noConfusion hlx
      | fuelOut =>
        rw [hpk] at hlx
        dsimp only at hlx
        exact Res.noConfusion hlx
  · decide

/-- Claim C7, witness: the two-character branch on the input `"=="`. -/
theorem claim_C7_witness :
    ({ type := Tok.EQ, literal := "==" } : Token) =
      { type := if c7_lex.ch = '=' then Tok.EQ else Tok.NEQ,
        literal := String.mk [c7_lex.ch, '='] } ∧
    c7_lex2.read_position = c7_lex.read_position + 2 :=
  (claim_C7.1 c7_lex c7_lex2 { type := Tok.EQ, literal := "==" } (Or.inl rfl) rfl).1 rfl

/-- On all-ASCII text the byte length is the character count. -/
theorem byteLen_ascii (cs : List Char) (h : ascii cs) : byteLen cs = cs.length := by
  induction cs with
  | nil => rfl
  | cons c cs ih =>
    have hc : c.utf8Size = 1 := h c (List.mem_cons_self c cs)
    have hrest : ascii cs := fun x hx => h x (List.mem_cons_of_mem c hx)
    have hih := ih hrest
    simp only [byteLen, List.map_cons, List.sum_cons, List.length_cons] at *
    omega

/-- On all-ASCII text, dropping `a` bytes drops `a` characters. -/
theorem byteDrop_ascii : ∀ (a : Nat) (cs : List Char), ascii cs → a ≤ cs.length →
    byteDrop cs a = some (cs.drop a) := by
  intro a
  induction a with
  | zero => intro cs _ _; simp [byteDrop]
  | succ n ih =>
    intro cs h hle
    cases cs with
    | nil => simp at hle
    | cons c cs =>
      have hc : c.utf8Size = 1 := h c (by simp)
      simp only [byteDrop, hc]
      rw [if_pos (by omega)]
      simp only [Nat.add_sub_cancel, List.drop_succ_cons]
      exact ih cs (fun x hx => h x (by simp [hx])) (by simpa using hle)

/-- On all-ASCII text, taking `a` bytes takes `a` characters. -/
theorem byteTake_ascii : ∀ (a : Nat) (cs : List Char), ascii cs → a ≤ cs.length →
    byteTake cs a = some (cs.take a) := by
  intro a
  induction a with
  | zero => intro cs _ _; simp [byteTake]
  | succ n ih =>
    intro cs h hle
    cases cs with
    | nil => simp at hle
    | cons c cs =>
      have hc : c.utf8Size = 1 := h c (by simp)
      simp only [byteTake, hc]
      rw [if_pos (by omega)]
      simp only [Nat.add_sub_cancel, List.take_succ_cons]
      rw [ih cs (fun x hx => h x (by simp [hx])) (by simpa using hle)]
      rfl

/-- On all-ASCII text the byte slice `[a..b]` is the character
range `[a..b)`. -/
theorem byteSlice_ascii (cs : List Char) (a b : Nat) (h : ascii cs) (hab : a ≤ b)
    (hb : b ≤ cs.length) :
    byteSlice cs a b = some ((cs.drop a).take (b - a)) := by
  unfold byteSlice
  rw [if_pos hab, byteDrop_ascii a cs h (le_trans hab hb), Option.some_bind]
  exact byteTake_ascii (b - a) (cs.drop a)
    (fun x hx => h x (List.mem_of_mem_drop hx))
    (by rw [List.length_drop]; omega)

/-- `read_char` on a well-formed state: never panics, advances the
cursor by one, loads the next character (end marker past the end). -/
theorem read_char_wf (l : Lexer) (hwf : lexer_wf l) :
    read_char l = .ok
      { input := l.input,
        position := l.read_position,
        read_position := l.read_position + 1,
        ch := (l.input.get? l.read_position).getD '\x00' } := by
  obtain ⟨ha, hrp, hch⟩ := hwf
  unfold read_char
  split
  · rename_i hge
    rw [byteLen_ascii l.input ha] at hge
    rw [List.get?_eq_none.mpr hge]
    rfl
  · rename_i hlt
    rw [byteLen_ascii l.input ha] at hlt
    push_neg at hlt
    cases hg : l.input.get? l.read_position with
    | none => exact absurd (List.get?_eq_none.mp hg) (by omega)
    | some c => rfl

/-- The advanced state of `read_char_wf` is well formed again. -/
theorem read_char_wf_state (l : Lexer) (hwf : lexer_wf l) :
    lexer_wf
      { input := l.input,
        position := l.read_position,
        read_position := l.read_position + 1,
        ch := (l.input.get? l.read_position).getD '\x00' } :=
  ⟨hwf.1, rfl, rfl⟩

/-- The scan loops on a well-formed state, with sufficient fuel:
the cursor ends up right after the maximal run of characters passing
the test, and the state stays well formed. -/
theorem scan_loop_ascii (test : Char → Bool) (h0 : test '\x00' = false) :
    ∀ (f : Nat) (l : Lexer), lexer_wf l → l.input.length ≤ l.position + f →
    scan_loop test f l = .ok
      { input := l.input,
        position := l.position + (List.takeWhile test (l.input.drop l.position)).length,
        read_position := l.position + (List.takeWhile test (l.input.drop l.position)).length + 1,
        ch := (l.input.get? (l.position +
          (List.takeWhile test (l.input.drop l.position)).length)).getD '\x00' } := by
  intro f
  induction f with
  | zero =>
    intro l hwf hfuel
    obtain ⟨ha, hrp, hch⟩ := hwf
    have hdrop : l.input.drop l.position = [] := List.drop_eq_nil_of_le (by omega)
    have hchv : l.ch = '\x00' := by
      rw [hch, List.get?_eq_none.mpr (by omega)]
      rfl
    simp only [scan_loop, hchv, h0, Bool.false_eq_true, if_false]
    rw [hdrop]
    simp only [List.takeWhile_nil, List.length_nil, Nat.add_zero]
    cases l with
    | mk inp pos rp ch =>
      simp only at hrp hch hdrop ⊢
      subst hrp
      subst hch
      rfl
  | succ n ih =>
    intro l hwf hfuel
    by_cases ht : test l.ch = true
    · obtain ⟨ha, hrp, hch⟩ := hwf
      have hg : l.input.get? l.position = some l.ch := by
        cases hgg : l.input.get? l.position with
        | none =>
          exfalso
          rw [hgg] at hch
          simp only [Option.getD_none] at hch
          rw [hch, h0] at ht
          exact Bool.false_ne_true ht
        | some c =>
          rw [hgg] at hch
          simp only [Option.getD_some] at hch
          rw [hch]
      have hpos : l.position < l.input.length := by
        by_contra hge
        rw [List.get?_eq_none.mpr (by omega)] at hg
        exact Option.noConfusion hg
      simp only [scan_loop]
      rw [if_pos ht, read_char_wf l ⟨ha, hrp, hch⟩]
      dsimp only
      rw [ih _ (read_char_wf_state l ⟨ha, hrp, hch⟩) (by dsimp only; omega)]
      have hidx : l.input[l.position] = l.ch := by
        have h1 : l.input[l.position]? = some l.ch := by
          rw [← List.get?_eq_getElem?]
          exact hg
        rw [List.getElem?_eq_getElem hpos] at h1
        exact Option.some.injEq _ _ |>.mp h1
      have hdropcons : l.input.drop l.position = l.ch :: l.input.drop (l.position + 1) := by
        rw [List.drop_eq_getElem_cons hpos, hidx]
      dsimp only
      rw [hrp, hdropcons, List.takeWhile_cons_of_pos ht]
      simp only [List.length_cons]
      have e1 : l.position + 1 + (List.takeWhile test (l.input.drop (l.position + 1))).length
          = l.position + ((List.takeWhile test (l.input.drop (l.position + 1))).length + 1) := by
        omega
      rw [e1]
    · obtain ⟨ha, hrp, hch⟩ := hwf
      have htw : List.takeWhile test (l.input.drop l.position) = [] := by
        by_cases hp : l.position < l.input.length
        · have hidx : l.input[l.position] = l.ch := by
            have h1 : l.input[l.position]? = some ((l.input.get? l.position).getD '\x00') := by
              rw [← List.get?_eq_getElem?]
              cases hgg : l.input.get? l.position with
              | none => exact absurd (List.get?_eq_none.mp hgg) (by omega)
              | some c => rfl
            rw [List.getElem?_eq_getElem hp] at h1
            rw [hch]
            exact Option.some.injEq _ _ |>.mp h1
          rw [List.drop_eq_getElem_cons hp, hidx]
          exact List.takeWhile_cons_of_neg (by simpa using ht)
        · rw [List.drop_eq_nil_of_le (by omega)]
          rfl
      simp only [scan_loop]
      rw [if_neg ht, htw]
      simp only [List.length_nil, Nat.add_zero]
      cases l with
      | mk inp pos rp ch =>
        simp only at hrp hch ⊢
        subst hrp
        subst hch
        rfl

/-- `read_identifier`/`read_number` on a well-formed state: the
literal is the maximal run of test-passing characters from the scan
position, and the state stays well formed. -/
theorem scan_slice_spec (test : Char → Bool) (h0 : test '\x00' = false)
    (l : Lexer) (hwf : lexer_wf l) (hle : l.position ≤ l.input.length) :
    scan_slice test l = .ok
      (String.mk (List.takeWhile test (l.input.drop l.position)),
       { input := l.input,
         position := l.position + (List.takeWhile test (l.input.drop l.position)).length,
         read_position := l.position + (List.takeWhile test (l.input.drop l.position)).length + 1,
         ch := (l.input.get? (l.position +
           (List.takeWhile test (l.input.drop l.position)).length)).getD '\x00' }) := by
  have hK : (List.takeWhile test (l.input.drop l.position)).length ≤
      l.input.length - l.position := by
    have h1 := (List.takeWhile_prefix (l := l.input.drop l.position) test).length_le
    rw [List.length_drop] at h1
    exact h1
  unfold scan_slice
  rw [scan_loop_ascii test h0 (scan_fuel l) l hwf (by
    unfold scan_fuel
    rw [byteLen_ascii l.input hwf.1, hwf.2.1]
    omega)]
  dsimp only
  rw [byteSlice_ascii l.input l.position
    (l.position + (List.takeWhile test (l.input.drop l.position)).length)
    hwf.1 (by omega) (by omega)]
  have hpref : (l.input.drop l.position).take
      (List.takeWhile test (l.input.drop l.position)).length
      = List.takeWhile test (l.input.drop l.position) :=
    (List.prefix_iff_eq_take.mp (List.takeWhile_prefix test)).symm
  rw [Nat.add_sub_cancel_left, hpref]

/-- The element right after the maximal test-passing prefix fails the
test. -/
theorem get?_length_takeWhile {α : Type} (p : α → Bool) :
    ∀ (xs : List α) (c : α), xs.get? (List.takeWhile p xs).length = some c →
    p c = false := by
  intro xs
  induction xs with
  | nil => intro c h; simp at h
  | cons a xs ih =>
    intro c h
    by_cases hp : p a = true
    · rw [List.takeWhile_cons_of_pos hp, List.length_cons, List.get?_cons_succ] at h
      exact ih c h
    · rw [List.takeWhile_cons_of_neg hp, List.length_nil, List.get?_cons_zero] at h
      cases h
      exact (Bool.not_eq_true (p a)).mp hp

/-- `peak_char` on a well-formed state never panics and returns the
character under the lookahead cursor (end marker past the end). -/
theorem peak_char_wf (l : Lexer) (hwf : lexer_wf l) :
    peak_char l = .ok ((l.input.get? l.read_position).getD '\x00') := by
  obtain ⟨ha, hrp, hch⟩ := hwf
  unfold peak_char
  split
  · rename_i hge
    rw [byteLen_ascii _ ha] at hge
    rw [List.get?_eq_none.mpr hge]
    rfl
  · rename_i hlt
    rw [byteLen_ascii _ ha] at hlt
    push_neg at hlt
    cases hg : l.input.get? l.read_position with
    | none => exact absurd (List.get?_eq_none.mp hg) (by omega)
    | some c => rfl

/-- `skip_whitespace` from a well-formed state. -/
theorem skip_whitespace_wf (l : Lexer) (hwf : lexer_wf l) :
    skip_whitespace l = .ok (skip_ws_state l) := by
  unfold skip_whitespace skip_ws_state
  exact scan_loop_ascii is_ws (by decide) (scan_fuel l) l hwf (by
    unfold scan_fuel
    rw [byteLen_ascii l.input hwf.1, hwf.2.1]
    omega)

/-- The state after skipping whitespace is well formed. -/
theorem skip_ws_state_wf (l : Lexer) (hwf : lexer_wf l) : lexer_wf (skip_ws_state l) :=
  ⟨hwf.1, rfl, rfl⟩

/-- The character after the whitespace run is not whitespace. -/
theorem skip_ws_state_not_ws (l : Lexer) : is_ws (skip_ws_state l).ch = false := by
  unfold skip_ws_state
  dsimp only
  cases hg : l.input.get? (l.position +
      (List.takeWhile is_ws (l.input.drop l.position)).length) with
  | none => decide
  | some c =>
    simp only [Option.getD_some]
    apply get?_length_takeWhile is_ws (l.input.drop l.position) c
    rw [List.get?_drop]
    exact hg

/-- `next_token` behaves as from the whitespace-skipped state. -/
theorem lexer_next_token_skip (l : Lexer) (hwf : lexer_wf l) :
    lexer_next_token l = lexer_next_token (skip_ws_state l) := by
  unfold lexer_next_token
  rw [skip_whitespace_wf l hwf,
      skip_whitespace_not_ws (skip_ws_state l) (skip_ws_state_not_ws l)]

/-- `new_token` with a kind other than `LET`/`IDENT` trivially
satisfies the token guarantees. -/
theorem new_token_wf (tt : TokenType) (ch : Char) (h1 : tt ≠ Tok.LET)
    (h2 : tt ≠ Tok.IDENT) : token_wf (new_token tt ch) :=
  ⟨fun h => absurd h h1, fun h => absurd h h2⟩

/-- The shared emit tail on a well-formed state: the prepared token is
returned and the advanced state is well formed over the same input. -/
theorem emit_wf_case (l : Lexer) (hwf : lexer_wf l) (tok : Token) (t : Token)
    (l2 : Lexer) (h : emit tok l = .ok (t, l2)) (htok : token_wf tok) :
    lexer_wf l2 ∧ l2.input = l.input ∧ token_wf t := by
  unfold emit at h
  rw [read_char_wf l hwf] at h
  dsimp only at h
  simp only [Res.ok.injEq, Prod.mk.injEq] at h
  obtain ⟨h1, h2⟩ := h
  subst h1
  subst h2
  exact ⟨read_char_wf_state l hwf, rfl, htok⟩

/-- A string the keyword table maps to `LET` is the word `let`. -/
theorem lookup_ident_eq_let (s : String) (h : lookup_ident s = Tok.LET) : s = "let" := by
  by_cases h1 : s = "fn"
  · subst h1; exact absurd h (by decide)
  by_cases h2 : s = "let"
  · exact h2
  by_cases h3 : s = "true"
  · subst h3; exact absurd h (by decide)
  by_cases h4 : s = "false"
  · subst h4; exact absurd h (by decide)
  by_cases h5 : s = "if"
  · subst h5; exact absurd h (by decide)
  by_cases h6 : s = "else"
  · subst h6; exact absurd h (by decide)
  by_cases h7 : s = "return"
  · subst h7; exact absurd h (by decide)
  exfalso
  have hnone : lookup_ident s = Tok.IDENT := by
    unfold lookup_ident KEYWORDS
    rw [List.find?_cons_of_neg _ (by simp [h1]),
        List.find?_cons_of_neg _ (by simp [h2]),
        List.find?_cons_of_neg _ (by simp [h3]),
        List.find?_cons_of_neg _ (by simp [h4]),
        List.find?_cons_of_neg _ (by simp [h5]),
        List.find?_cons_of_neg _ (by simp [h6]),
        List.find?_cons_of_neg _ (by simp [h7]),
        List.find?_nil]
  rw [hnone] at h
  exact absurd h (by decide)

/-- On a well-formed state whose current character is not the end
marker, that character really is the one at the scan position. -/
theorem wf_ch_some (l : Lexer) (hwf : lexer_wf l) (hch : l.ch ≠ '\x00') :
    l.input.get? l.position = some l.ch ∧ l.position < l.input.length := by
  obtain ⟨ha, hrp, hc⟩ := hwf
  cases hg : l.input.get? l.position with
  | none =>
    rw [hg] at hc
    simp only [Option.getD_none] at hc
    exact absurd hc hch
  | some c =>
    rw [hg] at hc
    simp only [Option.getD_some] at hc
    subst hc
    refine ⟨rfl, ?_⟩
    by_contra hge
    push_neg at hge
    rw [List.get?_eq_none.mpr hge] at hg
    exact Option.noConfusion hg

/-- The rest of the input, seen from a well-formed state with a real
current character, starts with that character. -/
theorem wf_drop_cons (l : Lexer) (hwf : lexer_wf l) (hch : l.ch ≠ '\x00') :
    l.input.drop l.position = l.ch :: l.input.drop (l.position + 1) := by
  obtain ⟨hg, hpos⟩ := wf_ch_some l hwf hch
  have hidx : l.input[l.position] = l.ch := by
    have h1 : l.input[l.position]? = some l.ch := by
      rw [← List.get?_eq_getElem?]
      exact hg
    rw [List.getElem?_eq_getElem hpos] at h1
    exact (Option.some.injEq _ _).mp h1
  rw [List.drop_eq_getElem_cons hpos, hidx]

/-- `next_token` on a well-formed state whose current character is not
whitespace: the new state is well formed over the same input, and the
emitted token satisfies the token guarantees. -/
theorem lexer_next_token_wf_nows (l : Lexer) (hwf : lexer_wf l)
    (hws : is_ws l.ch = false) (t : Token) (l2 : Lexer)
    (h : lexer_next_token l = .ok (t, l2)) :
    lexer_wf l2 ∧ l2.input = l.input ∧ token_wf t := by
  unfold lexer_next_token at h
  rw [skip_whitespace_not_ws l hws] at h
  split at h
  case h_1 x heq => exact Res.noConfusion heq
  case h_2 x heq => exact Res.noConfusion heq
  rename_i x lw heq
  injection heq with heq
  subst heq
  by_cases hc1 : (l.ch == '=') = true
  · rw [if_pos hc1] at h
    rw [peak_char_wf l hwf] at h
    dsimp only at h
    split at h
    · rw [read_char_wf l hwf] at h
      dsimp only at h
      unfold emit at h
      rw [read_char_wf _ (read_char_wf_state l hwf)] at h
      dsimp only at h
      simp only [Res.ok.injEq, Prod.mk.injEq] at h
      obtain ⟨h1, h2⟩ := h
      subst h1
      subst h2
      exact ⟨read_char_wf_state _ (read_char_wf_state l hwf), rfl,
             fun hty => absurd hty (show Tok.EQ ≠ Tok.LET by decide),
             fun hty => absurd hty (show Tok.EQ ≠ Tok.IDENT by decide)⟩
    · exact emit_wf_case l hwf _ t l2 h (new_token_wf _ _ (by decide) (by decide))
  · rw [if_neg hc1] at h
    by_cases hc2 : (l.ch == '+') = true
    · rw [if_pos hc2] at h
      exact emit_wf_case l hwf _ t l2 h (new_token_wf _ _ (by decide) (by decide))
    · rw [if_neg hc2] at h
      by_cases hc3 : (l.ch == '-') = true
      · rw [if_pos hc3] at h
        exact emit_wf_case l hwf _ t l2 h (new_token_wf _ _ (by decide) (by decide))
      · rw [if_neg hc3] at h
        by_cases hc4 : (l.ch == '!') = true
        · rw [if_pos hc4] at h
          rw [peak_char_wf l hwf] at h
          dsimp only at h
          split at h
          · rw [read_char_wf l hwf] at h
            dsimp only at h
            unfold emit at h
            rw [read_char_wf _ (read_char_wf_state l hwf)] at h
            dsimp only at h
            simp only [Res.ok.injEq, Prod.mk.injEq] at h
            obtain ⟨h1, h2⟩ := h
            subst h1
            subst h2
            exact ⟨read_char_wf_state _ (read_char_wf_state l hwf), rfl,
                   fun hty => absurd hty (show Tok.NEQ ≠ Tok.LET by decide),
                   fun hty => absurd hty (show Tok.NEQ ≠ Tok.IDENT by decide)⟩
          · exact emit_wf_case l hwf _ t l2 h (new_token_wf _ _ (by decide) (by decide))
        · rw [if_neg hc4] at h
          by_cases hc5 : (l.ch == '*') = true
          · rw [if_pos hc5] at h
            exact emit_wf_case l hwf _ t l2 h (new_token_wf _ _ (by decide) (by decide))
          · rw [if_neg hc5] at h
            by_cases hc6 : (l.ch == '/') = true
            · rw [if_pos hc6] at h
              exact emit_wf_case l hwf _ t l2 h (new_token_wf _ _ (by decide) (by decide))
            · rw [if_neg hc6] at h
              by_cases hc7 : (l.ch == '<') = true
              · rw [if_pos hc7] at h
                exact emit_wf_case l hwf _ t l2 h (new_token_wf _ _ (by decide) (by decide))
              · rw [if_neg hc7] at h
                by_cases hc8 : (l.ch == '>') = true
                · rw [if_pos hc8] at h
                  exact emit_wf_case l hwf _ t l2 h (new_token_wf _ _ (by decide) (by decide))
                · rw [if_neg hc8] at h
                  by_cases hc9 : (l.ch == ';') = true
                  · rw [if_pos hc9] at h
                    exact emit_wf_case l hwf _ t l2 h (new_token_wf _ _ (by decide) (by decide))
                  · rw [if_neg hc9] at h
                    by_cases hc10 : (l.ch == '(') = true
                    · rw [if_pos hc10] at h
                      exact emit_wf_case l hwf _ t l2 h (new_token_wf _ _ (by decide) (by decide))
                    · rw [if_neg hc10] at h
                      by_cases hc11 : (l.ch == ')') = true
                      · rw [if_pos hc11] at h
                        exact emit_wf_case l hwf _ t l2 h (new_token_wf _ _ (by decide) (by decide))
                      · rw [if_neg hc11] at h
                        by_cases hc12 : (l.ch == '\x7b') = true
                        · rw [if_pos hc12] at h
                          exact emit_wf_case l hwf _ t l2 h (new_token_wf _ _ (by decide) (by decide))
                        · rw [if_neg hc12] at h
                          by_cases hc13 : (l.ch == '\x7d') = true
                          · rw [if_pos hc13] at h
                            exact emit_wf_case l hwf _ t l2 h (new_token_wf _ _ (by decide) (by decide))
                          · rw [if_neg hc13] at h
                            by_cases hc14 : (l.ch == ',') = true
                            · rw [if_pos hc14] at h
                              exact emit_wf_case l hwf _ t l2 h (new_token_wf _ _ (by decide) (by decide))
                            · rw [if_neg hc14] at h
                              by_cases hc15 : (l.ch == '\x00') = true
                              · rw [if_pos hc15] at h
                                exact emit_wf_case l hwf _ t l2 h (new_token_wf _ _ (by decide) (by decide))
                              · rw [if_neg hc15] at h
                                by_cases hc16 : is_letter l.ch = true
                                · rw [if_pos hc16] at h
                                  have hch0 : l.ch ≠ '\x00' := by
                                    intro he
                                    rw [he] at hc16
                                    exact absurd hc16 (by decide)
                                  have hpos := (wf_ch_some l hwf hch0).2
                                  unfold read_identifier at h
                                  rw [scan_slice_spec is_letter (by decide) l hwf (Nat.le_of_lt hpos)] at h
                                  dsimp only at h
                                  simp only [Res.ok.injEq, Prod.mk.injEq] at h
                                  obtain ⟨h1, h2⟩ := h
                                  subst h1
                                  subst h2
                                  refine ⟨⟨hwf.1, rfl, rfl⟩, rfl, ?_, ?_⟩
                                  · intro hty
                                    exact lookup_ident_eq_let _ hty
                                  · intro hty
                                    refine ⟨?_, ?_, hty⟩
                                    · show List.takeWhile is_letter (l.input.drop l.position) ≠ []
                                      rw [wf_drop_cons l hwf hch0, List.takeWhile_cons_of_pos hc16]
                                      simp
                                    · intro c hc
                                      exact List.mem_takeWhile_imp hc
                                · rw [if_neg hc16] at h
                                  by_cases hc17 : is_numeric l.ch = true
                                  · rw [if_pos hc17] at h
                                    have hch0 : l.ch ≠ '\x00' := by
                                      intro he
                                      rw [he] at hc17
                                      exact absurd hc17 (by decide)
                                    have hpos := (wf_ch_some l hwf hch0).2
                                    unfold read_number at h
                                    rw [scan_slice_spec is_numeric (by decide) l hwf (Nat.le_of_lt hpos)] at h
                                    dsimp only at h
                                    simp only [Res.ok.injEq, Prod.mk.injEq] at h
                                    obtain ⟨h1, h2⟩ := h
                                    subst h1
                                    subst h2
                                    exact ⟨⟨hwf.1, rfl, rfl⟩, rfl,
                                           fun hty => absurd hty (show Tok.INT ≠ Tok.LET by decide),
                                           fun hty => absurd hty (show Tok.INT ≠ Tok.IDENT by decide)⟩
                                  · rw [if_neg hc17] at h
                                    exact emit_wf_case l hwf _ t l2 h (new_token_wf _ _ (by decide) (by decide))

/-- `next_token` on any well-formed state: well-formedness is
preserved, the input is unchanged, and the emitted token satisfies the
token guarantees. -/
theorem lexer_next_token_wf (l : Lexer) (hwf : lexer_wf l) (t : Token) (l2 : Lexer)
    (h : lexer_next_token l = .ok (t, l2)) :
    lexer_wf l2 ∧ l2.input = l.input ∧ token_wf t := by
  rw [lexer_next_token_skip l hwf] at h
  exact lexer_next_token_wf_nows (skip_ws_state l) (skip_ws_state_wf l hwf)
    (skip_ws_state_not_ws l) t l2 h

/-- A letter never `==`-equals a non-letter character. -/
theorem letter_beq_false (c d : Char) (hc : is_letter c = true)
    (hd : is_letter d = false) : (c == d) = false := by
  cases hb : c == d
  · rfl
  · rw [eq_of_beq hb] at hc
    rw [hc] at hd
    exact Bool.noConfusion hd

/-- Branch-selection form of `letter_beq_false`. -/
theorem letter_if_neg (c d : Char) (hc : is_letter c = true)
    (hd : is_letter d = false) : ¬((c == d) = true) := by
  rw [letter_beq_false c d hc hd]
  exact Bool.false_ne_true

/-- Letters are not whitespace. -/
theorem is_ws_false_of_letter (c : Char) (hc : is_letter c = true) :
    is_ws c = false := by
  unfold is_ws
  rw [letter_beq_false c ' ' hc (by decide), letter_beq_false c '\t' hc (by decide),
      letter_beq_false c '\n' hc (by decide), letter_beq_false c '\r' hc (by decide)]
  rfl

/-- The letters accepted by `is_letter` are ASCII (one UTF-8 byte). -/
theorem utf8Size_of_letter (c : Char) (h : is_letter c = true) : c.utf8Size = 1 := by
  have hv : c.val ≤ 127 := by
    unfold is_letter at h
    rw [Bool.or_eq_true] at h
    rcases h with h | h
    · unfold Char.isAlpha at h
      rw [Bool.or_eq_true] at h
      rcases h with h | h
      · unfold Char.isUpper at h
        rw [Bool.and_eq_true, decide_eq_true_eq, decide_eq_true_eq] at h
        exact UInt32.le_trans h.2 (by decide)
      · unfold Char.isLower at h
        rw [Bool.and_eq_true, decide_eq_true_eq, decide_eq_true_eq] at h
        exact UInt32.le_trans h.2 (by decide)
    · rw [eq_of_beq h]
      decide
  unfold Char.utf8Size
  dsimp only
  split
  · rfl
  · rename_i hcontra
    exact absurd hv hcontra

/-- `takeWhile` over a passing run followed by a failing character
takes exactly the run. -/
theorem takeWhile_append_all (p : Char → Bool) (L : List Char) (c : Char)
    (rest : List Char) (hL : ∀ x ∈ L, p x = true) (hc : p c = false) :
    List.takeWhile p (L ++ c :: rest) = L := by
  induction L with
  | nil => simp [List.takeWhile_cons_of_neg, hc]
  | cons a L ih =>
    rw [List.cons_append, List.takeWhile_cons_of_pos (hL a (by simp))]
    rw [ih (fun x hx => hL x (by simp [hx]))]

/-- `Parser::next_token` preserves parser well-formedness. -/
theorem parser_next_token_wf (p p2 : Parser) (hwf : parser_wf p)
    (h : parser_next_token p = .ok p2) : parser_wf p2 := by
  unfold parser_next_token at h
  split at h
  · rename_i t lx heq
    injection h with h
    subst h
    obtain ⟨hlx, _, htok⟩ := lexer_next_token_wf p.lexer hwf.1 t lx heq
    refine ⟨hlx, hwf.2.2, fun t' ht' => ?_⟩
    injection ht' with ht'
    subst ht'
    exact htok
  · exact Res.noConfusion h
  · exact Res.noConfusion h

/-- What `Parser::next_token` does to the token slots: `peek` shifts
into `current` and everything but the lexer and `peek` is kept. -/
theorem parser_next_token_spec (p p2 : Parser) (h : parser_next_token p = .ok p2) :
    p2.cur_token = p.peek_token ∧ p2.errors = p.errors ∧
    p2.prefix_parse_fns = p.prefix_parse_fns := by
  unfold parser_next_token at h
  split at h
  · rename_i t lx heq
    injection h with h
    subst h
    exact ⟨rfl, rfl, rfl⟩
  · exact Res.noConfusion h
  · exact Res.noConfusion h

/-- The trailing-skip loop preserves parser well-formedness. -/
theorem skip_to_semicolon_wf (fuel : Nat) (p p2 : Parser) (hwf : parser_wf p)
    (h : skip_to_semicolon fuel p = .ok p2) : parser_wf p2 := by
  induction fuel generalizing p with
  | zero =>
    unfold skip_to_semicolon at h
    split at h
    · injection h with h
      subst h
      exact hwf
    · exact Res.noConfusion h
  | succ n ih =>
    unfold skip_to_semicolon at h
    split at h
    · injection h with h
      subst h
      exact hwf
    · split at h
      · rename_i p3 heq
        exact ih p3 (parser_next_token_wf p p3 hwf heq) h
      · exact Res.noConfusion h
      · exact Res.noConfusion h

/-- `Parser::peek_error` only appends a diagnostic: well-formedness is
preserved. -/
theorem peek_error_wf (p : Parser) (tt : TokenType) (p2 : Parser) (hwf : parser_wf p)
    (h : peek_error p tt = .ok p2) : parser_wf p2 := by
  unfold peek_error at h
  split at h
  · injection h with h
    subst h
    exact ⟨hwf.1, hwf.2.1, hwf.2.2⟩
  · exact Res.noConfusion h

/-- `Parser::expect_peek` preserves well-formedness, and on acceptance
the checked peek token has shifted into the current slot. -/
theorem expect_peek_wf (p : Parser) (tt : TokenType) (b : Bool) (p2 : Parser)
    (hwf : parser_wf p) (h : expect_peek p tt = .ok (b, p2)) :
    parser_wf p2 ∧
    (b = true → p2.cur_token = p.peek_token ∧ peek_token_is p tt = true) := by
  unfold expect_peek at h
  split at h
  · rename_i hpk
    split at h
    · rename_i p3 heq
      injection h with h
      injection h with h1 h2
      subst h2
      exact ⟨parser_next_token_wf p p3 hwf heq,
             fun _ => ⟨(parser_next_token_spec p p3 heq).1, hpk⟩⟩
    · exact Res.noConfusion h
    · exact Res.noConfusion h
  · split at h
    · rename_i p3 heq
      injection h with h
      injection h with h1 h2
      subst h2
      refine ⟨peek_error_wf p tt p3 hwf heq, fun hb => ?_⟩
      rw [← h1] at hb
      exact Bool.noConfusion hb
    · exact Res.noConfusion h
    · exact Res.noConfusion h

/-- `Parser::parse_expression` preserves well-formedness (the only
registered strategy returns the state unchanged). -/
theorem parse_expression_wf (prec : Nat) (p : Parser) (eo : Option Expr) (p2 : Parser)
    (hwf : parser_wf p) (h : parse_expression prec p = .ok (eo, p2)) :
    parser_wf p2 := by
  unfold parse_expression at h
  split at h
  · exact Res.noConfusion h
  · rename_i ct hct
    split at h
    · injection h with h
      injection h with h1 h2
      subst h2
      exact hwf
    · rename_i f hf
      split at h
      · rename_i e p3 heq
        injection h with h
        injection h with h1 h2
        subst h2
        cases f
        unfold run_prefix_fn parse_identifier at heq
        dsimp only at heq
        rw [hct] at heq
        dsimp only at heq
        injection heq with heq
        injection heq with he1 he2
        subst he2
        exact hwf
      · exact Res.noConfusion h
      · exact Res.noConfusion h

/-- `Parser::parse_expression_statement` preserves well-formedness and
only produces expression statements. -/
theorem parse_expression_statement_wf (p : Parser) (stOpt : Option Stmt) (p2 : Parser)
    (hwf : parser_wf p) (h : parse_expression_statement p = .ok (stOpt, p2)) :
    parser_wf p2 ∧ ∀ st, stOpt = some st → stmt_render_wf st := by
  unfold parse_expression_statement at h
  split at h
  · injection h with h
    injection h with h1 h2
    subst h2
    exact ⟨hwf, fun st hst => by rw [← h1] at hst; exact Option.noConfusion hst⟩
  · rename_i tok htok
    split at h
    · rename_i p3 heq
      injection h with h
      injection h with h1 h2
      subst h2
      exact ⟨parse_expression_wf LOWEST p none p3 hwf heq,
             fun st hst => by rw [← h1] at hst; exact Option.noConfusion hst⟩
    · rename_i e p3 heq
      have hwf3 := parse_expression_wf LOWEST p (some e) p3 hwf heq
      split at h
      · split at h
        · rename_i p4 hnt
          injection h with h
          injection h with h1 h2
          subst h2
          refine ⟨parser_next_token_wf p3 p4 hwf3 hnt, fun st hst => ?_⟩
          rw [← h1] at hst
          injection hst with hst
          subst hst
          trivial
        · exact Res.noConfusion h
        · exact Res.noConfusion h
      · injection h with h
        injection h with h1 h2
        subst h2
        refine ⟨hwf3, fun st hst => ?_⟩
        rw [← h1] at hst
        injection hst with hst
        subst hst
        trivial
    · exact Res.noConfusion h
    · exact Res.noConfusion h

/-- `Parser::parse_return_statement` preserves well-formedness and
only produces return statements. -/
theorem parse_return_statement_wf (fuel : Nat) (p0 : Parser) (stOpt : Option Stmt)
    (p2 : Parser) (hwf : parser_wf p0)
    (h : parse_return_statement fuel p0 = .ok (stOpt, p2)) :
    parser_wf p2 ∧ ∀ st, stOpt = some st → stmt_render_wf st := by
  have hwfn : parser_wf { p0 with cur_token := none } :=
    ⟨hwf.1, fun t ht => Option.noConfusion ht, hwf.2.2⟩
  unfold parse_return_statement at h
  split at h
  · injection h with h
    injection h with h1 h2
    subst h2
    exact ⟨hwfn, fun st hst => by rw [← h1] at hst; exact Option.noConfusion hst⟩
  · rename_i rtok hct
    dsimp only at h
    split at h
    · injection h with h
      injection h with h1 h2
      subst h2
      exact ⟨hwfn, fun st hst => by rw [← h1] at hst; exact Option.noConfusion hst⟩
    · split at h
      · rename_i p1 hnt
        split at h
        · rename_i p3 hskip
          injection h with h
          injection h with h1 h2
          subst h2
          refine ⟨skip_to_semicolon_wf fuel p1 p3
                    (parser_next_token_wf _ p1 hwfn hnt) hskip, fun st hst => ?_⟩
          rw [← h1] at hst
          injection hst with hst
          subst hst
          trivial
        · exact Res.noConfusion h
        · exact Res.noConfusion h
      · exact Res.noConfusion h
      · exact Res.noConfusion h

/-- `Parser::parse_let_statement` preserves well-formedness, and every
let statement it produces satisfies the rendering guarantees: the
leading token is spelled `let` and the name is a nonempty all-letter
identifier that the keyword table classifies as `IDENT`. -/
theorem parse_let_statement_render (fuel : Nat) (p0 : Parser) (stOpt : Option Stmt)
    (p2 : Parser) (hwf : parser_wf p0)
    (h : parse_let_statement fuel p0 = .ok (stOpt, p2)) :
    parser_wf p2 ∧ ∀ st, stOpt = some st → stmt_render_wf st := by
  have hwfn : parser_wf { p0 with cur_token := none } :=
    ⟨hwf.1, fun t ht => Option.noConfusion ht, hwf.2.2⟩
  unfold parse_let_statement at h
  split at h
  · injection h with h
    injection h with h1 h2
    subst h2
    exact ⟨hwfn, fun st hst => by rw [← h1] at hst; exact Option.noConfusion hst⟩
  · rename_i let_token hct
    dsimp only at h
    split at h
    · injection h with h
      injection h with h1 h2
      subst h2
      exact ⟨hwfn, fun st hst => by rw [← h1] at hst; exact Option.noConfusion hst⟩
    · rename_i hty
      split at h
      · rename_i p1 hep
        injection h with h
        injection h with h1 h2
        subst h2
        exact ⟨(expect_peek_wf _ Tok.IDENT false p1 hwfn hep).1,
               fun st hst => by rw [← h1] at hst; exact Option.noConfusion hst⟩
      · rename_i p1 hep
        split at h
        · injection h with h
          injection h with h1 h2
          subst h2
          exact ⟨(expect_peek_wf _ Tok.IDENT true p1 hwfn hep).1,
                 fun st hst => by rw [← h1] at hst; exact Option.noConfusion hst⟩
        · rename_i identifier_token hid
          split at h
          · rename_i p4 hep2
            injection h with h
            injection h with h1 h2
            subst h2
            exact ⟨(expect_peek_wf p1 Tok.ASSIGN false p4
                      (expect_peek_wf _ Tok.IDENT true p1 hwfn hep).1 hep2).1,
                   fun st hst => by rw [← h1] at hst; exact Option.noConfusion hst⟩
          · rename_i p4 hep2
            split at h
            · rename_i p3 hskip
              injection h with h
              injection h with h1 h2
              subst h2
              have hwf1 := (expect_peek_wf _ Tok.IDENT true p1 hwfn hep).1
              have hspec := (expect_peek_wf _ Tok.IDENT true p1 hwfn hep).2 rfl
              have hwf2 := (expect_peek_wf p1 Tok.ASSIGN true p4 hwf1 hep2).1
              refine ⟨skip_to_semicolon_wf fuel p4 p3 hwf2 hskip, fun st hst => ?_⟩
              rw [← h1] at hst
              injection hst with hst
              subst hst
              have hty' : let_token.type = Tok.LET := not_not.mp hty
              have htw : token_wf let_token := hwf.2.1 let_token hct
              have hpk : p0.peek_token = some identifier_token := hspec.1.symm.trans hid
              have hitw : token_wf identifier_token := hwf.2.2 identifier_token hpk
              have hent : identifier_token.type = Tok.IDENT := by
                have hpkt := hspec.2
                unfold peek_token_is at hpkt
                dsimp only at hpkt
                rw [hpk] at hpkt
                dsimp only at hpkt
                exact eq_of_beq hpkt
              obtain ⟨hne, hall, hlook⟩ := hitw.2 hent
              exact ⟨htw.1 hty', rfl, hne, hall, hlook⟩
            · exact Res.noConfusion h
            · exact Res.noConfusion h
          · exact Res.noConfusion h
          · exact Res.noConfusion h
      · exact Res.noConfusion h
      · exact Res.noConfusion h

/-- `Parser::parse_statement` preserves well-formedness and every
statement it produces satisfies the rendering guarantees. -/
theorem parse_statement_render (fuel : Nat) (p : Parser) (stOpt : Option Stmt)
    (p2 : Parser) (hwf : parser_wf p)
    (h : parse_statement fuel p = .ok (stOpt, p2)) :
    parser_wf p2 ∧ ∀ st, stOpt = some st → stmt_render_wf st := by
  unfold parse_statement at h
  split at h
  · exact Res.noConfusion h
  · split at h
    · exact parse_let_statement_render fuel p stOpt p2 hwf h
    · split at h
      · exact parse_return_statement_wf fuel p stOpt p2 hwf h
      · exact parse_expression_statement_wf p stOpt p2 hwf h

/-- Every statement of a completed `parse_program` run from a
well-formed parser state satisfies the rendering guarantees. -/
theorem parse_program_render (fuel : Nat) (p : Parser) (sts : List Stmt) (p2 : Parser)
    (hwf : parser_wf p) (h : parse_program fuel p = .ok (sts, p2)) :
    ∀ st ∈ sts, stmt_render_wf st := by
  induction fuel generalizing p sts p2 with
  | zero =>
    unfold parse_program at h
    split at h
    · injection h with h
      injection h with h1 h2
      intro st hst
      rw [← h1] at hst
      exact absurd hst (List.not_mem_nil st)
    · exact Res.noConfusion h
  | succ n ih =>
    unfold parse_program at h
    split at h
    · injection h with h
      injection h with h1 h2
      intro st hst
      rw [← h1] at hst
      exact absurd hst (List.not_mem_nil st)
    · split at h
      · rename_i stOpt p1 hps
        split at h
        · rename_i p1b hnt
          split at h
          · rename_i rest p3 hrec
            injection h with h
            injection h with h1 h2
            obtain ⟨hwf1, hrender⟩ := parse_statement_render (n + 1) p stOpt p1 hwf hps
            have hwf2 := parser_next_token_wf p1 p1b hwf1 hnt
            have hrest := ih p1b rest p3 hwf2 hrec
            intro st hst
            rw [← h1] at hst
            cases stOpt with
            | some s =>
              dsimp only at hst
              rcases List.mem_cons.mp hst with hh | ht
              · exact hrender st (by rw [hh])
              · exact hrest st ht
            | none =>
              dsimp only at hst
              exact hrest st hst
          · exact Res.noConfusion h
          · exact Res.noConfusion h
        · exact Res.noConfusion h
        · exact Res.noConfusion h
      · exact Res.noConfusion h
      · exact Res.noConfusion h

/-- `Parser::new` on a well-formed lexer yields a well-formed parser
state. -/
theorem parser_new_wf (lx : Lexer) (p : Parser) (hlx : lexer_wf lx)
    (h : parser_new lx = .ok p) : parser_wf p := by
  unfold parser_new at h
  dsimp only at h
  split at h
  · rename_i p1 h1
    split at h
    · rename_i p2 h2
      injection h with h
      subst h
      have hw0 : parser_wf { lexer := lx, cur_token := none, peek_token := none,
                             errors := [], prefix_parse_fns := [], infix_parse_fns := [] } :=
        ⟨hlx, fun t ht => Option.noConfusion ht, fun t ht => Option.noConfusion ht⟩
      have hw1 := parser_next_token_wf _ p1 hw0 h1
      have hw2 := parser_next_token_wf p1 p2 hw1 h2
      exact ⟨hw2.1, hw2.2.1, hw2.2.2⟩
    · exact Res.noConfusion h
    · exact Res.noConfusion h
  · exact Res.noConfusion h
  · exact Res.noConfusion h

/-- `Lexer::new` on all-ASCII input yields a well-formed lexer
state. -/
theorem lexer_new_wf (cs : List Char) (l : Lexer) (ha : ascii cs)
    (h : lexer_new cs = .ok l) : lexer_wf l := by
  unfold lexer_new read_char at h
  split at h
  · rename_i hle
    injection h with h
    subst h
    refine ⟨ha, rfl, ?_⟩
    have hnil : cs = [] := by
      cases cs with
      | nil => rfl
      | cons c cs' =>
        exfalso
        have hpos : 0 < byteLen (c :: cs') := by
          unfold byteLen
          rw [List.map_cons, List.sum_cons]
          exact Nat.lt_of_lt_of_le c.utf8Size_pos (Nat.le_add_right _ _)
        exact absurd hle (Nat.not_le.mpr hpos)
    rw [hnil]
    rfl
  · split at h
    · rename_i c hg
      injection h with h
      subst h
      refine ⟨ha, rfl, ?_⟩
      rw [hg]
      rfl
    · exact Res.noConfusion h

/-- Every statement of a completed parse of all-ASCII source satisfies
the rendering guarantees. -/
theorem parse_input_render (fuel : Nat) (s : String) (ha : ascii s.data)
    (sts : List Stmt) (p2 : Parser) (h : parse_input fuel s = .ok (sts, p2)) :
    ∀ st ∈ sts, stmt_render_wf st := by
  unfold parse_input at h
  split at h
  · rename_i lx hlx
    split at h
    · rename_i p hp
      exact parse_program_render fuel p sts p2
        (parser_new_wf lx p (lexer_new_wf s.data lx ha hlx) hp) h
    · exact Res.noConfusion h
    · exact Res.noConfusion h
  · exact Res.noConfusion h
  · exact Res.noConfusion h

/-- `next_token` from a well-formed state whose current character is a
letter: the emitted token is the scanned identifier run, classified by
the keyword table, and the cursor moves past the run. -/
theorem lexer_next_token_letter (l : Lexer) (hwf : lexer_wf l)
    (hch : is_letter l.ch = true) :
    lexer_next_token l = .ok
      ({ type := lookup_ident (String.mk (List.takeWhile is_letter (l.input.drop l.position))),
         literal := String.mk (List.takeWhile is_letter (l.input.drop l.position)) },
       { input := l.input,
         position := l.position + (List.takeWhile is_letter (l.input.drop l.position)).length,
         read_position := l.position + (List.takeWhile is_letter (l.input.drop l.position)).length + 1,
         ch := (l.input.get? (l.position +
           (List.takeWhile is_letter (l.input.drop l.position)).length)).getD '\x00' }) := by
  have hch0 : l.ch ≠ '\x00' := by
    intro he
    rw [he] at hch
    exact absurd hch (by decide)
  unfold lexer_next_token
  rw [skip_whitespace_not_ws l (is_ws_false_of_letter l.ch hch)]
  dsimp only
  rw [if_neg (letter_if_neg l.ch '=' hch (by decide)),
      if_neg (letter_if_neg l.ch '+' hch (by decide)),
      if_neg (letter_if_neg l.ch '-' hch (by decide)),
      if_neg (letter_if_neg l.ch '!' hch (by decide)),
      if_neg (letter_if_neg l.ch '*' hch (by decide)),
      if_neg (letter_if_neg l.ch '/' hch (by decide)),
      if_neg (letter_if_neg l.ch '<' hch (by decide)),
      if_neg (letter_if_neg l.ch '>' hch (by decide)),
      if_neg (letter_if_neg l.ch ';' hch (by decide)),
      if_neg (letter_if_neg l.ch '(' hch (by decide)),
      if_neg (letter_if_neg l.ch ')' hch (by decide)),
      if_neg (letter_if_neg l.ch '\x7b' hch (by decide)),
      if_neg (letter_if_neg l.ch '\x7d' hch (by decide)),
      if_neg (letter_if_neg l.ch ',' hch (by decide)),
      if_neg (letter_if_neg l.ch '\x00' hch (by decide)),
      if_pos hch]
  unfold read_identifier
  rw [scan_slice_spec is_letter (by decide) l hwf
    (Nat.le_of_lt (wf_ch_some l hwf hch0).2)]

/-- `Lexer::new` on nonempty input loads the first character. -/
theorem lexer_new_cons (c : Char) (rest : List Char) :
    lexer_new (c :: rest) =
      .ok { input := c :: rest, position := 0, read_position := 1, ch := c } := by
  have h1 : 0 < byteLen (c :: rest) := by
    unfold byteLen
    rw [List.map_cons, List.sum_cons]
    exact Nat.lt_of_lt_of_le c.utf8Size_pos (Nat.le_add_right _ _)
  unfold lexer_new read_char
  rw [if_neg (Nat.not_le.mpr h1)]
  rfl

/-- Lexing the rendered text `let <name> = ;` of a let statement: the
first two tokens are the `let` keyword and the name identifier. -/
theorem lex_let_name (c0 : Char) (L' : List Char)
    (hall : ∀ c ∈ c0 :: L', is_letter c = true)
    (hlook : lookup_ident (String.mk (c0 :: L')) = Tok.IDENT) :
    lex_string 2 (String.mk ('l' :: 'e' :: 't' :: ' ' :: (c0 :: L' ++ [' ', '=', ' ', ';']))) =
      .ok [{ type := Tok.LET, literal := "let" },
           { type := Tok.IDENT, literal := String.mk (c0 :: L') }] := by
  have hc0 : is_letter c0 = true := hall c0 (List.mem_cons_self _ _)
  have hasc : ascii ('l' :: 'e' :: 't' :: ' ' :: (c0 :: L' ++ [' ', '=', ' ', ';'])) := by
    intro c hc
    simp only [List.mem_cons, List.mem_append] at hc
    rcases hc with rfl | rfl | rfl | rfl | hin | rfl | rfl | rfl | rfl | hnil
    · decide
    · decide
    · decide
    · decide
    · exact utf8Size_of_letter c (hall c (List.mem_cons.mpr hin))
    · decide
    · decide
    · decide
    · decide
    · exact absurd hnil (List.not_mem_nil c)
  have hwf0 : lexer_wf { input := 'l' :: 'e' :: 't' :: ' ' :: (c0 :: L' ++ [' ', '=', ' ', ';']),
                         position := 0, read_position := 1, ch := 'l' } := ⟨hasc, rfl, rfl⟩
  have htw1 : List.takeWhile is_letter
      ('l' :: 'e' :: 't' :: ' ' :: (c0 :: L' ++ [' ', '=', ' ', ';'])) = ['l', 'e', 't'] := by
    rw [List.takeWhile_cons_of_pos (by decide), List.takeWhile_cons_of_pos (by decide),
        List.takeWhile_cons_of_pos (by decide), List.takeWhile_cons_of_neg (by decide)]
  have h1 := lexer_next_token_letter
    { input := 'l' :: 'e' :: 't' :: ' ' :: (c0 :: L' ++ [' ', '=', ' ', ';']),
      position := 0, read_position := 1, ch := 'l' } hwf0 (show is_letter 'l' = true by decide)
  dsimp only at h1
  simp only [List.drop_zero, htw1] at h1
  have h1x : lexer_next_token { input := 'l' :: 'e' :: 't' :: ' ' ::
        (c0 :: L' ++ [' ', '=', ' ', ';']), position := 0, read_position := 1, ch := 'l' } =
      .ok ({ type := Tok.LET, literal := "let" },
           { input := 'l' :: 'e' :: 't' :: ' ' :: (c0 :: L' ++ [' ', '=', ' ', ';']),
             position := 3, read_position := 4, ch := ' ' }) := h1
  have hwf1 : lexer_wf { input := 'l' :: 'e' :: 't' :: ' ' :: (c0 :: L' ++ [' ', '=', ' ', ';']),
                         position := 3, read_position := 4, ch := ' ' } := ⟨hasc, rfl, rfl⟩
  have hnc0 : ¬(is_ws c0 = true) := by
    rw [is_ws_false_of_letter c0 hc0]
    exact Bool.false_ne_true
  have hsw : skip_ws_state { input := 'l' :: 'e' :: 't' :: ' ' ::
        (c0 :: L' ++ [' ', '=', ' ', ';']), position := 3, read_position := 4, ch := ' ' } =
      { input := 'l' :: 'e' :: 't' :: ' ' :: (c0 :: L' ++ [' ', '=', ' ', ';']),
        position := 4, read_position := 5, ch := c0 } := by
    unfold skip_ws_state
    dsimp only
    rw [show List.drop 3 ('l' :: 'e' :: 't' :: ' ' :: (c0 :: L' ++ [' ', '=', ' ', ';'])) =
          ' ' :: (c0 :: L' ++ [' ', '=', ' ', ';']) from rfl,
        List.takeWhile_cons_of_pos (by decide : is_ws ' ' = true),
        List.cons_append, List.takeWhile_cons_of_neg hnc0]
    exact rfl
  have hwf2 : lexer_wf { input := 'l' :: 'e' :: 't' :: ' ' :: (c0 :: L' ++ [' ', '=', ' ', ';']),
                         position := 4, read_position := 5, ch := c0 } := ⟨hasc, rfl, rfl⟩
  have htw2 : List.takeWhile is_letter (c0 :: L' ++ [' ', '=', ' ', ';']) = c0 :: L' :=
    takeWhile_append_all is_letter (c0 :: L') ' ' ['=', ' ', ';'] hall (by decide)
  have h2 := lexer_next_token_letter
    { input := 'l' :: 'e' :: 't' :: ' ' :: (c0 :: L' ++ [' ', '=', ' ', ';']),
      position := 4, read_position := 5, ch := c0 } hwf2 hc0
  dsimp only at h2
  simp only [show List.drop 4 ('l' :: 'e' :: 't' :: ' ' :: (c0 :: L' ++ [' ', '=', ' ', ';'])) =
        c0 :: L' ++ [' ', '=', ' ', ';'] from rfl, htw2, hlook] at h2
  have h2x : lexer_next_token { input := 'l' :: 'e' :: 't' :: ' ' ::
        (c0 :: L' ++ [' ', '=', ' ', ';']), position := 3, read_position := 4, ch := ' ' } =
      .ok ({ type := Tok.IDENT, literal := String.mk (c0 :: L') },
           { input := 'l' :: 'e' :: 't' :: ' ' :: (c0 :: L' ++ [' ', '=', ' ', ';']),
             position := 4 + (c0 :: L').length,
             read_position := 4 + (c0 :: L').length + 1,
             ch := (('l' :: 'e' :: 't' :: ' ' :: (c0 :: L' ++ [' ', '=', ' ', ';'])).get?
               (4 + (c0 :: L').length)).getD '\x00' }) := by
    rw [lexer_next_token_skip _ hwf1, hsw]
    exact h2
  unfold lex_string
  dsimp only
  rw [lexer_new_cons]
  dsimp only
  simp only [lex_tokens]
  rw [h1x]
  dsimp only
  rw [h2x]

/-- Rendering a let statement that satisfies the guarantees of
`stmt_render_wf` and re-lexing the rendered text yields the `let`
keyword followed by one identifier token carrying the original name
literal. -/
theorem lex_render_let (tok : Token) (name : Identifier)
    (hwf : stmt_render_wf (Stmt.letStmt tok name)) :
    lex_string 2 (Stmt.string (Stmt.letStmt tok name)) =
      .ok [{ type := Tok.LET, literal := "let" },
           { type := Tok.IDENT, literal := name.token.literal }] := by
  obtain ⟨h1, h2, h3, h4, h5⟩ := hwf
  obtain ⟨c0, L', hL⟩ := List.exists_cons_of_ne_nil h3
  have hmk : String.mk (c0 :: L') = name.token.literal := by
    apply String.ext
    rw [hL]
  have hstr : Stmt.string (Stmt.letStmt tok name) =
      String.mk ('l' :: 'e' :: 't' :: ' ' :: (c0 :: L' ++ [' ', '=', ' ', ';'])) := by
    unfold Stmt.string Identifier.string
    dsimp only
    rw [h1, h2]
    apply String.ext
    rw [String.data_append, String.data_append, String.data_append, String.data_append, hL]
    rw [show ("let" : String).data = ['l', 'e', 't'] from rfl,
        show (" " : String).data = [' '] from rfl,
        show (" = " : String).data = [' ', '=', ' '] from rfl,
        show (";" : String).data = [';'] from rfl,
        show (String.mk ('l' :: 'e' :: 't' :: ' ' :: (c0 :: L' ++ [' ', '=', ' ', ';']))).data =
          'l' :: 'e' :: 't' :: ' ' :: (c0 :: L' ++ [' ', '=', ' ', ';']) from rfl]
    simp
  have hall : ∀ c ∈ c0 :: L', is_letter c = true := by
    intro c hc
    apply h4
    rw [hL]
    exact hc
  have hlook : lookup_ident (String.mk (c0 :: L')) = Tok.IDENT := by
    rw [hmk]
    exact h5
  rw [hstr, lex_let_name c0 L' hall hlook, hmk]

/-- C9: for every `LetStatement` node produced by a successful parse
(of all-ASCII source, where the model is byte-faithful; on non-ASCII
source the Rust lexer panics before any parse completes, see C3),
rendering the node back to text with its `string()` method and lexing
that rendered text yields, as the token following the `let` keyword,
an identifier token whose literal equals the original let statement's
name literal exactly. -/
theorem claim_C9 (fuel : Nat) (s : String) (ha : ascii s.data)
    (sts : List Stmt) (p : Parser) (h : parse_input fuel s = .ok (sts, p))
    (st : Stmt) (hst : st ∈ sts) (tok : Token) (name : Identifier)
    (hshape : st = Stmt.letStmt tok name) :
    lex_string 2 st.string =
      .ok [{ type := Tok.LET, literal := "let" },
           { type := Tok.IDENT, literal := name.token.literal }] := by
  subst hshape
  exact lex_render_let tok name (parse_input_render fuel s ha sts p h _ hst)

/-- C9 witness: the parse of `let x = 5;` yields one let statement,
whose rendering `let x = ;` re-lexes to the `let` keyword followed by
the identifier token `x`. -/
theorem claim_C9_witness :
    lex_string 2 (Stmt.string (Stmt.letStmt { type := Tok.LET, literal := "let" }
        { token := { type := Tok.IDENT, literal := "x" }, value := "x" })) =
      .ok [{ type := Tok.LET, literal := "let" },
           { type := Tok.IDENT, literal := "x" }] :=
  claim_C9 9 ("let x = 5;") (by unfold ascii; decide)
    [Stmt.letStmt { type := Tok.LET, literal := "let" }
       { token := { type := Tok.IDENT, literal := "x" }, value := "x" }]
    { lexer := { input := ['l', 'e', 't', ' ', 'x', ' ', '=', ' ', '5', ';'],
                 position := 12, read_position := 13, ch := '\x00' },
      cur_token := some { type := Tok.EOF, literal := "" },
      peek_token := some { type := Tok.EOF, literal := "" },
      errors := [],
      prefix_parse_fns := [(Tok.IDENT, PrefixFnSym.parseIdentifier)],
      infix_parse_fns := [] }
    (by decide)
    (Stmt.letStmt { type := Tok.LET, literal := "let" }
       { token := { type := Tok.IDENT, literal := "x" }, value := "x" })
    (by decide)
    { type := Tok.LET, literal := "let" }
    { token := { type := Tok.IDENT, literal := "x" }, value := "x" }
    rfl
